import Mathlib

/-!
# Firestorm NIDS: namespace lookup, DCB arena and the IPv4 decoder

A shallow embedding of `include/f_decode.h` and `src/p_ipv4.c`.

* Addresses are natural numbers.  Packet memory is a function from addresses
  to byte values; the packet buffer is the window `[pkt_base, pkt_end)` of it.
* The DCB arena is a store of typed blocks indexed by address.
* The field `log` of `_pkt` is ghost state: it records each packet load, each
  `mesg` warning and each sub-decoder invocation, in program order.
-/

set_option linter.unusedVariables false

namespace Firestorm

/-! ## Namespace registry (`f_decode.h`) -/

/-- The `struct _ns_entry`: a protocol id and the decoder registered for it
(the decoder is identified by its address). -/
structure _ns_entry where
  nse_id : Nat
  nse_decoder : Nat
deriving DecidableEq, Repr

/-- The `_ns_entry_search` of `f_decode.h`.  `tbl` is the memory holding the
entries, `p` the index of the first entry of the current window and `n` the
number of entries in the window.  `none` is the C `NULL`. -/
def _ns_entry_search (tbl : Nat → _ns_entry) (p n id : Nat) : Option Nat :=
  if hn : n = 0 then none
  else
    let i := n / 2
    if id < (tbl (p + i)).nse_id then
      _ns_entry_search tbl p i id
    else if id > (tbl (p + i)).nse_id then
      _ns_entry_search tbl (p + (i + 1)) (n - (i + 1)) id
    else
      some (tbl (p + i)).nse_decoder
termination_by n
decreasing_by
  all_goals simp_wf
  all_goals omega

/-- The entries `p .. p+n-1` of `tbl` are sorted strictly ascending by id. -/
def ns_sorted (tbl : Nat → _ns_entry) (p n : Nat) : Prop :=
  ∀ i j, i < j → j < n → (tbl (p + i)).nse_id < (tbl (p + j)).nse_id


/-! ## Build target and wire formats

The headers `pkt/ip.h`, `pkt/icmp.h`, `pkt/tcp.h`, `p_ipv4.h` and `f_packet.h`
are not part of the sources at hand.  What the code needs from them is
collected here. -/

/-- Modelled from the spec: properties of the build target that the missing
headers fix: the byte order of the host, the sizes of the DCB structures of
`p_ipv4.h` and `sizeof(struct pkt_ahhdr)`. -/
structure Target where
  bigEndian : Bool
  sizeof_ipfrag_dcb : Nat
  sizeof_ip_dcb : Nat
  sizeof_icmp_dcb : Nat
  sizeof_tcp_dcb : Nat
  sizeof_udp_dcb : Nat
  sizeof_pkt_ahhdr : Nat

/-- Packet memory: the byte stored at each address. -/
abbrev Mem := Nat → Nat

/-- One byte of packet memory. -/
def rd8 (mem : Mem) (a : Nat) : Nat := mem a % 256

/-- A `uint16_t` loaded from packet memory in host byte order. -/
def rd16 (T : Target) (mem : Mem) (a : Nat) : Nat :=
  if T.bigEndian then 256 * rd8 mem a + rd8 mem (a + 1)
  else rd8 mem a + 256 * rd8 mem (a + 1)

/-- Byte swap of a 16-bit value. -/
def bswap16 (x : Nat) : Nat := (x % 256) * 256 + (x / 256) % 256

/-- The `be16toh`: a big-endian 16-bit value, as loaded, to host order. -/
def be16toh (T : Target) (x : Nat) : Nat := if T.bigEndian then x % 65536 else bswap16 x

/-- The `const_be16`: a host constant in big-endian representation. -/
def const_be16 (T : Target) (x : Nat) : Nat := if T.bigEndian then x % 65536 else bswap16 x

/-- Modelled from the spec: `sizeof(struct pkt_iphdr)`, the fixed IPv4 header. -/
def sizeof_pkt_iphdr : Nat := 20
/-- Modelled from the spec: `sizeof(struct pkt_icmphdr)`. -/
def sizeof_pkt_icmphdr : Nat := 8
/-- Modelled from the spec: `sizeof(struct pkt_tcphdr)`. -/
def sizeof_pkt_tcphdr : Nat := 20
/-- Modelled from the spec: `sizeof(struct pkt_udphdr)`. -/
def sizeof_pkt_udphdr : Nat := 8
/-- Modelled from the spec: `sizeof(struct pkt_esphdr)`. -/
def sizeof_pkt_esphdr : Nat := 8

/-- Modelled from the spec: fragment flag and offset mask of `pkt/ip.h`. -/
def IP_MF : Nat := 0x2000
/-- Modelled from the spec: fragment offset mask of `pkt/ip.h`. -/
def IP_OFFMASK : Nat := 0x1fff

/-- Modelled from the spec: IP protocol numbers of `pkt/ip.h`. -/
def IP_PROTO_ICMP : Nat := 1
/-- Modelled from the spec: IP protocol number of IGMP. -/
def IP_PROTO_IGMP : Nat := 2
/-- Modelled from the spec: IP protocol number of IP-in-IP. -/
def IP_PROTO_IPIP : Nat := 4
/-- Modelled from the spec: IP protocol number of TCP. -/
def IP_PROTO_TCP : Nat := 6
/-- Modelled from the spec: IP protocol number of UDP. -/
def IP_PROTO_UDP : Nat := 17
/-- Modelled from the spec: IP protocol number of DCCP. -/
def IP_PROTO_DCCP : Nat := 33
/-- Modelled from the spec: IP protocol number of ESP. -/
def IP_PROTO_ESP : Nat := 50
/-- Modelled from the spec: IP protocol number of AH. -/
def IP_PROTO_AH : Nat := 51
/-- Modelled from the spec: IP protocol number of SCTP. -/
def IP_PROTO_SCTP : Nat := 132

/-- Modelled from the spec: ICMP message types of `pkt/icmp.h`. -/
def ICMP_DEST_UNREACH : Nat := 3
/-- Modelled from the spec: ICMP type Time-Exceeded. -/
def ICMP_TIME_EXCEEDED : Nat := 11
/-- Modelled from the spec: ICMP type Parameter-Problem. -/
def ICMP_PARAMETERPROB : Nat := 12

/-- Modelled from the spec: field `ihl` of `struct pkt_iphdr` (low nibble of
the first header byte). -/
def iph_ihl (mem : Mem) (iph : Nat) : Nat := rd8 mem iph % 16
/-- Modelled from the spec: field `version` of `struct pkt_iphdr` (high nibble
of the first header byte). -/
def iph_version (mem : Mem) (iph : Nat) : Nat := rd8 mem iph / 16
/-- Modelled from the spec: field `tot_len` of `struct pkt_iphdr`, as loaded. -/
def iph_tot_len (T : Target) (mem : Mem) (iph : Nat) : Nat := rd16 T mem (iph + 2)
/-- Modelled from the spec: field `frag_off` of `struct pkt_iphdr`, as loaded. -/
def iph_frag_off (T : Target) (mem : Mem) (iph : Nat) : Nat := rd16 T mem (iph + 6)
/-- Modelled from the spec: field `protocol` of `struct pkt_iphdr`. -/
def iph_protocol (mem : Mem) (iph : Nat) : Nat := rd8 mem (iph + 9)
/-- Modelled from the spec: field `type` of `struct pkt_icmphdr`. -/
def icmph_type (mem : Mem) (icmph : Nat) : Nat := rd8 mem icmph
/-- Modelled from the spec: field `doff` of `struct pkt_tcphdr` (high nibble of
byte 12). -/
def tcph_doff (mem : Mem) (tcph : Nat) : Nat := rd8 mem (tcph + 12) / 16
/-- Modelled from the spec: field `protocol` of `struct pkt_ahhdr` (next
header, first byte). -/
def ah_protocol (mem : Mem) (ah : Nat) : Nat := rd8 mem ah
/-- Modelled from the spec: field `ahl` of `struct pkt_ahhdr` (payload length,
second byte). -/
def ah_ahl (mem : Mem) (ah : Nat) : Nat := rd8 mem (ah + 1)

/-! ## Protocols, DCBs and the packet (`f_decode.h`, `f_packet.h`) -/

/-- The `struct _proto`, reduced to the fields the decoder reads. -/
structure _proto where
  p_label : String
  p_dcb_sz : Nat
deriving DecidableEq, Repr

/-- A block of the DCB arena.  `dcb_proto` and `dcb_next` are the fields of
`struct _dcb`; the other four are the body fields of the structures of
`p_ipv4.h`: `x_iph` is `ip_iph`, `icmp_iph`, `tcp_iph` or `udp_iph`, `x_ah` is
`ip_ah`, `icmp_ah`, `tcp_ah` or `udp_ah`, `x_hdr` is `icmp_hdr`, `tcp_hdr` or
`udp_hdr`, and `x_inner` is `icmp_inner`.  A pointer is `none` when `NULL`. -/
structure _dcb where
  dcb_proto : Option _proto
  dcb_next : Nat
  x_iph : Option Nat
  x_ah : Option Nat
  x_hdr : Option Nat
  x_inner : Option Nat
deriving DecidableEq, Repr

/-- The warnings issued through `mesg(M_WARN, ...)`. -/
inductive Warn
  | ip_hdrlen
  | ip_version
  | ip_truncated
  | ip_csum
  | icmp_bad_inner
  | ah_nesting
  | ah_hdrlen
  | ah_truncated
deriving DecidableEq, Repr

/-- Ghost events: `read a n` is a load of `n` bytes of packet memory at address
`a`, `warn w` a warning, `call slot` an invocation of `subproto[slot]`. -/
inductive Event
  | read (a n : Nat)
  | warn (w : Warn)
  | call (slot : Nat)
deriving DecidableEq, Repr

/-- Modelled from the spec: the `struct _pkt` of `f_packet.h`: the byte range
`[pkt_base, pkt_end)`, the cursor `pkt_nxthdr`, and the DCB arena
`[pkt_dcb, pkt_dcb_end)` with its top.  `arena` is the content of the arena
memory and `log` the ghost event log. -/
structure _pkt where
  pkt_base : Nat
  pkt_end : Nat
  pkt_nxthdr : Nat
  pkt_dcb : Nat
  pkt_dcb_top : Nat
  pkt_dcb_end : Nat
  arena : Nat → _dcb
  log : List Event

/-- Append an event to the ghost log. -/
def _pkt.ev (p : _pkt) (e : Event) : _pkt := { p with log := p.log ++ [e] }

/-- Store into the fields of the arena block at address `a`. -/
def _pkt.store (p : _pkt) (a : Nat) (f : _dcb → _dcb) : _pkt :=
  { p with arena := fun b => if b = a then f (p.arena b) else p.arena b }

/-- The `_decode_dcb_alloc` of `f_decode.h`. -/
def _decode_dcb_alloc (p : _pkt) (sz : Nat) : Option Nat × _pkt :=
  let ret := p.pkt_dcb_top
  let p := { p with pkt_dcb_top := ret + sz }
  if p.pkt_dcb_top > p.pkt_dcb_end then (none, p)
  else (some ret, p.store ret (fun d => { d with dcb_next := p.pkt_dcb_top }))

/-- The `_decode_layer` of `f_decode.h`. -/
def _decode_layer (pkt : _pkt) (p : _proto) : Option Nat × _pkt :=
  match _decode_dcb_alloc pkt p.p_dcb_sz with
  | (some ret, pkt) => (some ret, pkt.store ret (fun d => { d with dcb_proto := some p }))
  | (none, pkt) => (none, pkt)

/-- Modelled from the spec: `decode_layer` of `f_packet.h`, the allocation
entry point used by the decoders; it is `_decode_layer`. -/
def decode_layer (pkt : _pkt) (p : _proto) : Option Nat × _pkt := _decode_layer pkt p

/-! ## The IPv4 decoder (`p_ipv4.c`) -/

/-- The protocol `p_fragment`. -/
def p_fragment (T : Target) : _proto := { p_label := "ipfrag", p_dcb_sz := T.sizeof_ipfrag_dcb }
/-- The protocol `p_ipraw`. -/
def p_ipraw (T : Target) : _proto := { p_label := "ipraw", p_dcb_sz := T.sizeof_ip_dcb }
/-- The protocol `p_tunnel`. -/
def p_tunnel (T : Target) : _proto := { p_label := "iptunnel", p_dcb_sz := T.sizeof_ip_dcb }
/-- The protocol `p_icmp`. -/
def p_icmp (T : Target) : _proto := { p_label := "icmp", p_dcb_sz := T.sizeof_icmp_dcb }
/-- The protocol `p_esp`: its initialiser names no `p_dcb_sz`, which is
therefore zero. -/
def p_esp : _proto := { p_label := "esp", p_dcb_sz := 0 }
/-- The protocol `p_tcp`. -/
def p_tcp (T : Target) : _proto := { p_label := "tcp", p_dcb_sz := T.sizeof_tcp_dcb }
/-- The protocol `p_udp`. -/
def p_udp (T : Target) : _proto := { p_label := "udp", p_dcb_sz := T.sizeof_udp_dcb }

/-- The constant `ipfmask`. -/
def ipfmask (T : Target) : Nat := const_be16 T (IP_MF ||| IP_OFFMASK)

/-- The `for` loop of `_ip_csum`: `n` iterations remain, `i` is the loop
counter and `sum` the 32-bit accumulator. -/
def _ip_csum_loop (T : Target) (mem : Mem) (tmp : Nat) : Nat → Nat → Nat → Nat
  | 0, _, sum => sum
  | n + 1, i, sum =>
    let sum := (sum + rd16 T mem (tmp + 2 * i)) % 2 ^ 32
    let sum := if sum &&& 0x80000000 ≠ 0 then (sum &&& 0xffff) + (sum >>> 16) else sum
    _ip_csum_loop T mem tmp n (i + 1) sum

/-- The `while` loop of `_ip_csum`, with an iteration budget. -/
def _ip_csum_fold : Nat → Nat → Nat
  | 0, sum => sum
  | k + 1, sum =>
    if sum >>> 16 ≠ 0 then _ip_csum_fold k ((sum &&& 0xffff) + (sum >>> 16)) else sum

/-- The `_ip_csum`.  Each round of the `while` loop lowers `sum`, so `sum`
rounds are enough for the loop to reach its exit (`_ip_csum_fold_exit`).  The
complement of the 32-bit `sum` is `0xffffffff - sum`. -/
def _ip_csum (T : Target) (mem : Mem) (iph : Nat) : Nat :=
  let sum := _ip_csum_loop T mem iph (iph_ihl mem iph <<< 1) 0 0
  let sum := _ip_csum_fold sum sum
  (0xffffffff - sum % 2 ^ 32) &&& 0xffff

/-- The packet loads of `_ip_csum`: the `ihl` field, then `tmp[i]` for each
`i < ihl << 1`. -/
def _ip_csum_reads (mem : Mem) (iph : Nat) : List Event :=
  Event.read iph 1 ::
    (List.range (iph_ihl mem iph <<< 1)).map (fun i => Event.read (iph + 2 * i) 2)

/-- The handlers that the table `subproto` refers to. -/
inductive ipproto_t
  | raw_decode
  | icmp_decode
  | tunnel_decode
  | tcp_decode
  | udp_decode
  | esp_decode
  | ah_decode
deriving DecidableEq, Repr

/-- The table `subproto`; `none` is a `NULL` slot. -/
def subproto : List (Option ipproto_t) :=
  [ some .raw_decode,
    some .icmp_decode,
    none,
    some .tunnel_decode,
    some .tcp_decode,
    some .udp_decode,
    none,
    some .esp_decode,
    some .ah_decode,
    none ]

/-- The table `pmap`, indexed by the IP protocol number; the slots that the
initialiser does not name are zero. -/
def pmap (n : Nat) : Nat :=
  if n = IP_PROTO_ICMP then 1
  else if n = IP_PROTO_IGMP then 0
  else if n = IP_PROTO_IPIP then 3
  else if n = IP_PROTO_TCP then 4
  else if n = IP_PROTO_UDP then 5
  else if n = IP_PROTO_DCCP then 0
  else if n = IP_PROTO_ESP then 7
  else if n = IP_PROTO_AH then 8
  else if n = IP_PROTO_SCTP then 0
  else 0

/-- The `raw_decode`. -/
def raw_decode (T : Target) (p : _pkt) (iph : Nat) (ah : Option Nat) : _pkt :=
  match decode_layer p (p_ipraw T) with
  | (some dcb, p) => p.store dcb (fun d => { d with x_iph := some iph, x_ah := ah })
  | (none, p) => p

/-- The `icmp_try_inner`; the result is the inner header or `NULL`. -/
def icmp_try_inner (T : Target) (mem : Mem) (p : _pkt) (outer icmph : Nat) :
    Option Nat × _pkt :=
  let iph := p.pkt_nxthdr
  if p.pkt_nxthdr + sizeof_pkt_iphdr > p.pkt_end then (none, p)
  else
    let p := p.ev (.read iph 1)
    if iph_version mem iph ≠ 4 ∨ iph_ihl mem iph < 5 then
      (none, p.ev (.warn .icmp_bad_inner))
    else
      let p := { p with log := p.log ++ _ip_csum_reads mem iph }
      if _ip_csum T mem iph ≠ 0 then (none, p)
      else
        let p := p.ev (.read iph 1)
        (some iph, { p with pkt_nxthdr := p.pkt_nxthdr + (iph_ihl mem iph <<< 2) })

/-- The `icmp_decode`. -/
def icmp_decode (T : Target) (mem : Mem) (p : _pkt) (outer : Nat) (ah : Option Nat) : _pkt :=
  let icmph := p.pkt_nxthdr
  let p := { p with pkt_nxthdr := p.pkt_nxthdr + sizeof_pkt_icmphdr }
  if p.pkt_nxthdr > p.pkt_end then p
  else
    let p := p.ev (.read icmph 1)
    let r : Option Nat × _pkt :=
      if icmph_type mem icmph = ICMP_TIME_EXCEEDED ∨ icmph_type mem icmph = ICMP_DEST_UNREACH
          ∨ icmph_type mem icmph = ICMP_PARAMETERPROB then
        icmp_try_inner T mem p outer icmph
      else (none, p)
    let iph := r.1
    match decode_layer r.2 (p_icmp T) with
    | (none, p) => p
    | (some dcb, p) =>
      p.store dcb (fun d =>
        { d with x_iph := iph, x_ah := ah, x_hdr := some icmph, x_inner := iph })

/-- The `tcp_decode`. -/
def tcp_decode (T : Target) (mem : Mem) (p : _pkt) (iph : Nat) (ah : Option Nat) : _pkt :=
  if p.pkt_nxthdr + sizeof_pkt_tcphdr > p.pkt_end then p
  else
    let tcph := p.pkt_nxthdr
    let p := p.ev (.read (tcph + 12) 1)
    let p := { p with pkt_nxthdr := p.pkt_nxthdr + (tcph_doff mem tcph <<< 2) }
    if p.pkt_nxthdr > p.pkt_end then p
    else
      match decode_layer p (p_tcp T) with
      | (some dcb, p) =>
        p.store dcb (fun d => { d with x_iph := some iph, x_ah := ah, x_hdr := some tcph })
      | (none, p) => p

/-- The `udp_decode`. -/
def udp_decode (T : Target) (p : _pkt) (iph : Nat) (ah : Option Nat) : _pkt :=
  let p := { p with pkt_nxthdr := p.pkt_nxthdr + sizeof_pkt_udphdr }
  if p.pkt_nxthdr > p.pkt_end then p
  else
    match decode_layer p (p_udp T) with
    | (some dcb, p) =>
      p.store dcb (fun d =>
        { d with x_iph := some iph, x_ah := ah, x_hdr := some p.pkt_nxthdr })
    | (none, p) => p

/-- The `esp_decode`. -/
def esp_decode (p : _pkt) (iph : Nat) (ah : Option Nat) : _pkt :=
  let p := { p with pkt_nxthdr := p.pkt_nxthdr + sizeof_pkt_esphdr }
  if p.pkt_nxthdr > p.pkt_end then p
  else (decode_layer p p_esp).2

/-- What stops an evaluation short of the function's return: the call-depth
budget of the model is used up, or the code calls a `NULL` slot of `subproto`. -/
inductive Fault
  | out_of_fuel
  | null_handler
deriving DecidableEq, Repr

mutual

/-- The `ipv4_decode`.  The first argument bounds the depth of the calls. -/
def ipv4_decode (T : Target) (mem : Mem) : Nat → _pkt → Except Fault _pkt
  | 0, _ => .error .out_of_fuel
  | fuel + 1, p =>
    let iph := p.pkt_nxthdr
    if p.pkt_nxthdr + sizeof_pkt_iphdr > p.pkt_end then .ok p
    else
      let p := p.ev (.read iph 1)
      if iph_ihl mem iph < 5 then .ok (p.ev (.warn .ip_hdrlen))
      else
        let p := p.ev (.read iph 1)
        if iph_version mem iph ≠ 4 then .ok (p.ev (.warn .ip_version))
        else
          let p := p.ev (.read iph 1)
          let p := { p with pkt_nxthdr := p.pkt_nxthdr + (iph_ihl mem iph <<< 2) }
          if p.pkt_nxthdr > p.pkt_end then .ok p
          else
            let p := p.ev (.read (iph + 2) 2)
            let len := be16toh T (iph_tot_len T mem iph)
            if p.pkt_nxthdr > p.pkt_end then .ok (p.ev (.warn .ip_truncated))
            else
              let p := { p with log := p.log ++ _ip_csum_reads mem iph }
              if _ip_csum T mem iph ≠ 0 then .ok (p.ev (.warn .ip_csum))
              else
                let p := p.ev (.read (iph + 6) 2)
                if iph_frag_off T mem iph &&& ipfmask T ≠ 0 then
                  let p :=
                    match decode_layer p (p_fragment T) with
                    | (some dcb, p) => p.store dcb (fun d => { d with x_iph := some iph })
                    | (none, p) => p
                  .ok { p with pkt_nxthdr := iph + len }
                else
                  let p := p.ev (.read (iph + 9) 1)
                  match subproto_call T mem fuel (pmap (iph_protocol mem iph)) p iph none with
                  | .error e => .error e
                  | .ok p => .ok { p with pkt_nxthdr := iph + len }
termination_by structural fuel => fuel

/-- The call `(*subproto[slot])(p, iph, ah)`. -/
def subproto_call (T : Target) (mem : Mem) :
    Nat → Nat → _pkt → Nat → Option Nat → Except Fault _pkt
  | 0, _, _, _, _ => .error .out_of_fuel
  | fuel + 1, slot, p, iph, ah =>
    let p := p.ev (.call slot)
    match subproto[slot]? with
    | some (some .raw_decode) => .ok (raw_decode T p iph ah)
    | some (some .icmp_decode) => .ok (icmp_decode T mem p iph ah)
    | some (some .tunnel_decode) => tunnel_decode T mem fuel p iph ah
    | some (some .tcp_decode) => .ok (tcp_decode T mem p iph ah)
    | some (some .udp_decode) => .ok (udp_decode T p iph ah)
    | some (some .esp_decode) => .ok (esp_decode p iph ah)
    | some (some .ah_decode) => ah_decode T mem fuel p iph ah
    | _ => .error .null_handler
termination_by structural fuel => fuel

/-- The `tunnel_decode`. -/
def tunnel_decode (T : Target) (mem : Mem) :
    Nat → _pkt → Nat → Option Nat → Except Fault _pkt
  | 0, _, _, _ => .error .out_of_fuel
  | fuel + 1, p, iph, ah =>
    let p :=
      match decode_layer p (p_tunnel T) with
      | (some dcb, p) => p.store dcb (fun d => { d with x_iph := some iph, x_ah := ah })
      | (none, p) => p
    ipv4_decode T mem fuel p
termination_by structural fuel => fuel

/-- The `ah_decode`. -/
def ah_decode (T : Target) (mem : Mem) :
    Nat → _pkt → Nat → Option Nat → Except Fault _pkt
  | 0, _, _, _ => .error .out_of_fuel
  | fuel + 1, p, iph, bogus =>
    if bogus ≠ none then .ok (p.ev (.warn .ah_nesting))
    else
      let ah := p.pkt_nxthdr
      let p := { p with pkt_nxthdr := p.pkt_nxthdr + T.sizeof_pkt_ahhdr }
      if p.pkt_nxthdr > p.pkt_end then .ok p
      else
        let p := p.ev (.read (ah + 1) 1)
        if ah_ahl mem ah < 4 then .ok (p.ev (.warn .ah_hdrlen))
        else
          let p := p.ev (.read (ah + 1) 1)
          let p := { p with pkt_nxthdr := p.pkt_nxthdr + ((ah_ahl mem ah <<< 2) - 2) }
          if p.pkt_nxthdr > p.pkt_end then .ok (p.ev (.warn .ah_truncated))
          else
            let p := p.ev (.read ah 1)
            subproto_call T mem fuel (pmap (ah_protocol mem ah)) p iph (some ah)
termination_by structural fuel => fuel

end

/-! ## Vocabulary of the statements -/

/-- The slots of `subproto` invoked so far, in order. -/
def calls (l : List Event) : List Nat :=
  l.filterMap (fun e => match e with | .call s => some s | _ => none)

/-- The DCB arena of `q` is that of `p`: same bounds, same top, same content. -/
def arena_untouched (p q : _pkt) : Prop :=
  q.arena = p.arena ∧ q.pkt_dcb_top = p.pkt_dcb_top ∧ q.pkt_dcb = p.pkt_dcb ∧
    q.pkt_dcb_end = p.pkt_dcb_end

/-- The header checks of `ipv4_decode` all pass on the header under the
cursor: the fixed header fits, `ihl >= 5`, `version == 4`, the header with its
options fits, and the checksum is zero. -/
def gates_pass (T : Target) (mem : Mem) (p : _pkt) : Prop :=
  p.pkt_nxthdr + 20 ≤ p.pkt_end ∧ 5 ≤ iph_ihl mem p.pkt_nxthdr ∧
    iph_version mem p.pkt_nxthdr = 4 ∧
    p.pkt_nxthdr + 4 * iph_ihl mem p.pkt_nxthdr ≤ p.pkt_end ∧
    _ip_csum T mem p.pkt_nxthdr = 0

instance (T : Target) (mem : Mem) (p : _pkt) : Decidable (gates_pass T mem p) := by
  unfold gates_pass
  infer_instance

/-- The packet state when `ipv4_decode` reaches its fragment test: the cursor
is past the header and the loads of the checks are logged. -/
def ipv4_checked (mem : Mem) (p : _pkt) : _pkt :=
  { p with
    pkt_nxthdr := p.pkt_nxthdr + (iph_ihl mem p.pkt_nxthdr <<< 2),
    log := p.log ++ [.read p.pkt_nxthdr 1] ++ [.read p.pkt_nxthdr 1] ++ [.read p.pkt_nxthdr 1]
      ++ [.read (p.pkt_nxthdr + 2) 2] ++ _ip_csum_reads mem p.pkt_nxthdr
      ++ [.read (p.pkt_nxthdr + 6) 2] }

/-- The declared total length of the datagram: `tot_len`, big-endian. -/
def ip_len (T : Target) (mem : Mem) (iph : Nat) : Nat := be16toh T (iph_tot_len T mem iph)

/-- A call-depth budget that is enough for `ipv4_decode` on `p`: every level
of IP-in-IP nesting consumes at least 20 bytes and at most five nested calls. -/
def fuel_for (p : _pkt) : Nat := 5 * ((p.pkt_end - p.pkt_nxthdr) / 20) + 1

/-- The sum of the `n` words `w i, w (i+1), ...`. -/
def wsum (w : Nat → Nat) : Nat → Nat → Nat
  | 0, _ => 0
  | n + 1, i => w i + wsum w n (i + 1)

/-- The 16-bit words of the header at `iph`, as `_ip_csum` loads them. -/
def hdr_word (T : Target) (mem : Mem) (iph : Nat) (i : Nat) : Nat := rd16 T mem (iph + 2 * i)

/-- Modelled from the spec: field `csum` of `struct pkt_iphdr`, as loaded. -/
def iph_csum (T : Target) (mem : Mem) (iph : Nat) : Nat := rd16 T mem (iph + 10)

/-- The packet memory with the checksum field of the header at `iph` cleared. -/
def csum_cleared (mem : Mem) (iph : Nat) : Mem :=
  fun a => if a = iph + 10 ∨ a = iph + 11 then 0 else mem a

/-- The warnings issued so far, in order. -/
def warns (l : List Event) : List Warn :=
  l.filterMap (fun e => match e with | .warn w => some w | _ => none)

/-- Modelled from the spec: the forward iteration over the completed layers
that the `next` field of a block enables.  Starting at `cur`, a block is
visited while it lies below `top`, and the iteration goes on at its
`dcb_next`.  The first argument bounds the number of blocks visited. -/
def dcb_walk (arena : Nat → _dcb) (top : Nat) : Nat → Nat → List Nat
  | 0, _ => []
  | fuel + 1, cur =>
    if cur < top then cur :: dcb_walk arena top fuel (arena cur).dcb_next else []

/-- The labels of the owners of the completed layers of `q`, from the arena
base to the arena top. -/
def layer_labels (q : _pkt) (fuel : Nat) : List (Option String) :=
  (dcb_walk q.arena q.pkt_dcb_top fuel q.pkt_dcb).map
    (fun a => (q.arena a).dcb_proto.map (fun pr => pr.p_label))

/-- The start of the `i`-th of the nested IPv4 headers that begin at `c`. -/
def nth_hdr (mem : Mem) : Nat → Nat → Nat
  | 0, c => c
  | i + 1, c => nth_hdr mem i (c + 4 * iph_ihl mem c)

/-- The bytes from `c` on begin with `k` nested IPv4 headers, each of which
passes the header checks, is not a fragment and carries protocol IP-in-IP.
Nothing is asked of the datagram that the last of them carries. -/
def tunnel_headers (T : Target) (mem : Mem) (p : _pkt) : Nat → Nat → Prop
  | 0, _ => True
  | k + 1, c =>
    gates_pass T mem { p with pkt_nxthdr := c } ∧
    ¬ (be16toh T (iph_frag_off T mem c) &&& IP_MF ≠ 0 ∨
        be16toh T (iph_frag_off T mem c) &&& IP_OFFMASK ≠ 0) ∧
    iph_protocol mem c = IP_PROTO_IPIP ∧
    tunnel_headers T mem p k (c + 4 * iph_ihl mem c)

/-- Deciding `tunnel_headers` on concrete packets. -/
def tunnel_headers_dec (T : Target) (mem : Mem) (p : _pkt) :
    (k c : Nat) → Decidable (tunnel_headers T mem p k c)
  | 0, _ => (inferInstance : Decidable True)
  | k + 1, c =>
    have := tunnel_headers_dec T mem p k (c + 4 * iph_ihl mem c)
    (inferInstance : Decidable (gates_pass T mem { p with pkt_nxthdr := c } ∧
      ¬ (be16toh T (iph_frag_off T mem c) &&& IP_MF ≠ 0 ∨
          be16toh T (iph_frag_off T mem c) &&& IP_OFFMASK ≠ 0) ∧
      iph_protocol mem c = IP_PROTO_IPIP ∧
      tunnel_headers T mem p k (c + 4 * iph_ihl mem c)))

instance (T : Target) (mem : Mem) (p : _pkt) (k c : Nat) :
    Decidable (tunnel_headers T mem p k c) := tunnel_headers_dec T mem p k c

/-- The datagram at `c` opens a further tunnel level, that is, its decode
calls `tunnel_decode`: its header passes the checks, it is not a fragment, and
either it carries protocol IP-in-IP, or it carries protocol AH and its AH
header passes the checks of `ah_decode` and names protocol IP-in-IP. -/
def opens_tunnel (T : Target) (mem : Mem) (p : _pkt) (c : Nat) : Prop :=
  gates_pass T mem { p with pkt_nxthdr := c } ∧
  ¬ (be16toh T (iph_frag_off T mem c) &&& IP_MF ≠ 0 ∨
      be16toh T (iph_frag_off T mem c) &&& IP_OFFMASK ≠ 0) ∧
  (iph_protocol mem c = IP_PROTO_IPIP ∨
    (iph_protocol mem c = IP_PROTO_AH ∧
      c + 4 * iph_ihl mem c + T.sizeof_pkt_ahhdr ≤ p.pkt_end ∧
      4 ≤ ah_ahl mem (c + 4 * iph_ihl mem c) ∧
      c + 4 * iph_ihl mem c + T.sizeof_pkt_ahhdr +
        (4 * ah_ahl mem (c + 4 * iph_ihl mem c) - 2) ≤ p.pkt_end ∧
      ah_protocol mem (c + 4 * iph_ihl mem c) = IP_PROTO_IPIP))

instance (T : Target) (mem : Mem) (p : _pkt) (c : Nat) : Decidable (opens_tunnel T mem p c) := by
  unfold opens_tunnel
  infer_instance

/-- The allocation that `tunnel_decode` makes when `ipv4_decode`, entered in
state `p` on a checked, non-fragment IP-in-IP header, dispatches to it: the
`decode_layer(p, &p_tunnel)` of `tunnel_decode`, on the state that
`ipv4_decode` and the dispatch have brought `p` to. -/
def tunnel_alloc (T : Target) (mem : Mem) (p : _pkt) : Option Nat × _pkt :=
  decode_layer (((ipv4_checked mem p).ev (.read (p.pkt_nxthdr + 9) 1)).ev (.call 3)) (p_tunnel T)

/-- The state in which `tunnel_decode` calls `ipv4_decode` again, after the
allocation `tunnel_alloc` and the stores into the block (if there is one). -/
def tunnel_level (T : Target) (mem : Mem) (p : _pkt) : _pkt :=
  match tunnel_alloc T mem p with
  | (some dcb, q) => q.store dcb (fun d => { d with x_iph := some p.pkt_nxthdr, x_ah := none })
  | (none, q) => q

/-- The state after `i` tunnel levels. -/
def tunnel_levels (T : Target) (mem : Mem) : Nat → _pkt → _pkt
  | 0, p => p
  | i + 1, p => tunnel_levels T mem i (tunnel_level T mem p)

/-- From `p` to `q` the arena changed by at most one block, the one at the top
of `p`, and that block, if it changed, has an owner other than `iptunnel`;
the limit stayed, the top did not go down, and nothing changed at all if the
top of `p` was beyond the limit. -/
def arena_step (p q : _pkt) : Prop :=
  q.pkt_dcb_end = p.pkt_dcb_end ∧ p.pkt_dcb_top ≤ q.pkt_dcb_top ∧
  (∀ a, a ≠ p.pkt_dcb_top → q.arena a = p.arena a) ∧
  (q.arena p.pkt_dcb_top = p.arena p.pkt_dcb_top ∨
    ∃ pr, (q.arena p.pkt_dcb_top).dcb_proto = some pr ∧ pr.p_label ≠ "iptunnel") ∧
  (p.pkt_dcb_end < p.pkt_dcb_top → q.arena = p.arena)

/-- From `p` to `q` the limit of the arena stayed, the top did not go down, and
the arena did not change if the top of `p` was beyond the limit. -/
def arena_mono (p q : _pkt) : Prop :=
  q.pkt_dcb_end = p.pkt_dcb_end ∧ p.pkt_dcb_top ≤ q.pkt_dcb_top ∧
  (p.pkt_dcb_end < p.pkt_dcb_top → q.arena = p.arena)

/-! ## Flow tracking (`p_ipv4.c`) -/

/-- The calls to the flow subsystems, which are not part of the sources at
hand; a trace of these events stands for their effect. -/
inductive FlowEvent
  | _ipdefrag_ctor
  | _tcpflow_ctor
  | _ipdefrag_dtor
  | _tcpflow_dtor
deriving DecidableEq, Repr

/-- The `flow_track_ctor`.  `ipdefrag_ok` and `tcpflow_ok` are the results of
`_ipdefrag_ctor()` and `_tcpflow_ctor()`; `tr` is the trace so far. -/
def flow_track_ctor (ipdefrag_ok tcpflow_ok : Bool) (tr : List FlowEvent) :
    Nat × List FlowEvent :=
  let tr := tr ++ [FlowEvent._ipdefrag_ctor]
  if !ipdefrag_ok then (0, tr)
  else
    let tr := tr ++ [FlowEvent._tcpflow_ctor]
    if !tcpflow_ok then (0, tr ++ [FlowEvent._ipdefrag_dtor])
    else (1, tr)

/-- The `flow_track_dtor`. -/
def flow_track_dtor (tr : List FlowEvent) : List FlowEvent :=
  (tr ++ [FlowEvent._ipdefrag_dtor]) ++ [FlowEvent._tcpflow_dtor]

/-! ## Concrete inputs -/

/-- A namespace table given by a list of entries. -/
def tblOf (l : List _ns_entry) : Nat → _ns_entry := fun i => l.getD i { nse_id := 0, nse_decoder := 0 }

/-- A sorted table of three entries. -/
def tbl0 : Nat → _ns_entry :=
  tblOf [{ nse_id := 2, nse_decoder := 100 }, { nse_id := 8, nse_decoder := 200 },
    { nse_id := 2048, nse_decoder := 300 }]

/-- A little-endian target with plausible structure sizes. -/
def T0 : Target :=
  { bigEndian := false, sizeof_ipfrag_dcb := 24, sizeof_ip_dcb := 32, sizeof_icmp_dcb := 48,
    sizeof_tcp_dcb := 40, sizeof_udp_dcb := 40, sizeof_pkt_ahhdr := 12 }

/-- Packet memory holding the bytes of `l` from address 0 on. -/
def memOf (l : List Nat) : Mem := fun a => l.getD a 0

/-- An arena block with every field cleared. -/
def dcb0 : _dcb :=
  { dcb_proto := none, dcb_next := 0, x_iph := none, x_ah := none, x_hdr := none,
    x_inner := none }

/-- A fresh packet of `e` bytes at address 0 with a 400-byte arena at 1000. -/
def pk0 (e : Nat) : _pkt :=
  { pkt_base := 0, pkt_end := e, pkt_nxthdr := 0, pkt_dcb := 1000, pkt_dcb_top := 1000,
    pkt_dcb_end := 1400, arena := fun _ => dcb0, log := [] }

/-- A packet whose arena has 10 free bytes left. -/
def pkFull : _pkt := { pk0 0 with pkt_dcb_top := 1390 }

/-- The memory `mem` with the byte at `a` replaced by `v`. -/
def poke (mem : Mem) (a v : Nat) : Mem := fun b => if b = a then v else mem b

/-- Every packet load logged in `p` lies inside `[pkt_base, pkt_end)`. -/
def reads_in_bounds (p : _pkt) : Bool :=
  p.log.all (fun e => match e with
    | .read a n => decide (p.pkt_base ≤ a ∧ a + n ≤ p.pkt_end)
    | _ => true)

/-- A 48-byte datagram: an IPv4 header (IHL 5, protocol ICMP, valid checksum),
an ICMP Destination-Unreachable header, and 20 bytes of an embedded IPv4
header that declares IHL 15. -/
def pktA : List Nat :=
  [0x45, 0, 0, 48, 0, 0, 0, 0, 64, 1, 0x66, 0xcb, 10, 0, 0, 1, 10, 0, 0, 2,
   3, 0, 0, 0, 0, 0, 0, 0,
   0x4f, 0, 0, 0, 0, 0, 0, 0, 0, 0, 0, 0, 0, 0, 0, 0, 0, 0, 0, 0]

/-- A 48-byte datagram: an IPv4 header (IHL 5, protocol UDP, valid checksum)
with the more-fragments bit set, and 28 bytes of payload. -/
def pktF : List Nat :=
  [0x45, 0, 0, 48, 0, 0, 0x20, 0, 64, 17, 0x46, 0xbb, 10, 0, 0, 1, 10, 0, 0, 2,
   0, 0, 0, 0, 0, 0, 0, 0, 0, 0, 0, 0, 0, 0, 0, 0, 0, 0, 0, 0, 0, 0, 0, 0, 0, 0, 0, 0]

/-- A 40-byte datagram: an IPv4 header (IHL 5, protocol TCP, valid checksum) and a
20-byte TCP header with data offset 5. -/
def pktT : List Nat :=
  [0x45, 0, 0, 0x28, 0, 0, 0, 0, 0x40, 6, 0x66, 0xce, 0x0a, 0, 0, 1, 0x0a, 0, 0, 2,
   4, 0, 0, 0x50, 0, 0, 0, 1, 0, 0, 0, 0, 0x50, 2, 0x50, 0, 0, 0, 0, 0]

/-- A 32-byte datagram: an IPv4 header (IHL 5, protocol UDP, valid checksum), an
8-byte UDP header and 4 bytes of payload. -/
def pktU : List Nat :=
  [0x45, 0, 0, 0x20, 0, 0, 0, 0, 0x40, 0x11, 0x66, 0xcb, 0x0a, 0, 0, 1, 0x0a, 0, 0, 2,
   4, 0, 0, 0x35, 0, 0x0c, 0, 0, 1, 2, 3, 4]

/-- A 36-byte datagram: an IPv4 header (IHL 5, protocol ESP, valid checksum), an
8-byte ESP header and 8 bytes of payload. -/
def pktE : List Nat :=
  [0x45, 0, 0, 0x24, 0, 0, 0, 0, 0x40, 0x32, 0x66, 0xa6, 0x0a, 0, 0, 1, 0x0a, 0, 0, 2,
   0, 0, 1, 0, 0, 0, 0, 1, 9, 9, 9, 9, 9, 9, 9, 9]

/-- A 72-byte datagram: an IPv4 header (protocol AH), an AH header at offset 20
with payload length 4 (24 bytes on the wire) and next protocol TCP, a TCP
header at offset 44 and 8 bytes of payload. -/
def pktAH : List Nat :=
  [0x45, 0, 0, 0x48, 0, 0, 0, 0, 0x40, 0x33, 0x66, 0x81, 0x0a, 0, 0, 1, 0x0a, 0, 0, 2,
   6, 4, 0, 0, 0, 0, 1, 0, 0, 0, 0, 1, 0, 0, 0, 0, 0, 0, 0, 0,
   0, 0, 0, 0, 4, 0, 0, 0x50, 0, 0, 0, 1, 0, 0, 0, 0, 0x50, 2, 0x50, 0,
   0, 0, 0, 0, 7, 7, 7, 7, 7, 7, 7, 7]

/-- A 68-byte datagram: an IPv4 header (protocol AH), an AH header at offset 20
whose next protocol is AH again, and a second AH header. -/
def pktAA : List Nat :=
  [0x45, 0, 0, 0x44, 0, 0, 0, 0, 0x40, 0x33, 0x66, 0x85, 0x0a, 0, 0, 1, 0x0a, 0, 0, 2,
   0x33, 4, 0, 0, 0, 0, 1, 0, 0, 0, 0, 1, 0, 0, 0, 0, 0, 0, 0, 0,
   0, 0, 0, 0, 6, 4, 0, 0, 0, 0, 1, 0, 0, 0, 0, 1, 0, 0, 0, 0,
   0, 0, 0, 0, 0, 0, 0, 0]

/-- A 60-byte datagram: two nested IPv4 headers with protocol IP-in-IP, followed
by 20 zero bytes. -/
def pktTun : List Nat :=
  [0x45, 0, 0, 0x3c, 0, 0, 0, 0, 0x40, 4, 0x66, 0xbc, 0x0a, 0, 0, 1, 0x0a, 0, 0, 2,
   0x45, 0, 0, 0x28, 0, 0, 0, 0, 0x40, 4, 0x66, 0xd0, 0x0a, 0, 0, 1, 0x0a, 0, 0, 2,
   0, 0, 0, 0, 0, 0, 0, 0, 0, 0, 0, 0, 0, 0, 0, 0, 0, 0, 0, 0]

/-- A packet of 60 bytes whose arena has 40 free bytes left. -/
def pkTight : _pkt := { pk0 60 with pkt_dcb_top := 1360 }

/-- A 60-byte datagram: an IPv4 header with protocol IP-in-IP that carries the
IPv4/TCP datagram `pktT`. -/
def pktW : List Nat :=
  [0x45, 0, 0, 0x3c, 0, 0, 0, 0, 0x40, 4, 0x66, 0xbc, 0x0a, 0, 0, 1, 0x0a, 0, 0, 2,
   0x45, 0, 0, 0x28, 0, 0, 0, 0, 0x40, 6, 0x66, 0xce, 0x0a, 0, 0, 1, 0x0a, 0, 0, 2,
   4, 0, 0, 0x50, 0, 0, 0, 1, 0, 0, 0, 0, 0x50, 2, 0x50, 0, 0, 0, 0, 0]

/-- A 72-byte datagram: an IPv4 header with protocol IP-in-IP, carrying an IPv4
header with protocol AH whose AH header (at offset 40, payload length 4) names
protocol IP-in-IP, and 8 zero bytes. -/
def pktTA : List Nat :=
  [0x45, 0, 0, 0x48, 0, 0, 0, 0, 0x40, 4, 0x66, 0xb0, 0x0a, 0, 0, 1, 0x0a, 0, 0, 2,
   0x45, 0, 0, 0x34, 0, 0, 0, 0, 0x40, 0x33, 0x66, 0x95, 0x0a, 0, 0, 1, 0x0a, 0, 0, 2,
   4, 4, 0, 0, 0, 0, 1, 0, 0, 0, 0, 1, 0, 0, 0, 0, 0, 0, 0, 0,
   0, 0, 0, 0, 0, 0, 0, 0, 0, 0, 0, 0]

/-! ## Theorems -/

/-- Found case of the binary search, for any window of a sorted table. -/
theorem ns_search_found (tbl : Nat → _ns_entry) (id : Nat) :
    ∀ n p, ns_sorted tbl p n → ∀ k, k < n → (tbl (p + k)).nse_id = id →
      _ns_entry_search tbl p n id = some (tbl (p + k)).nse_decoder := by
  intro n
  induction n using Nat.strong_induction_on with
  | _ n ih =>
    intro p hs k hk hid
    rw [_ns_entry_search]
    have hn : n ≠ 0 := by omega
    simp only [hn, dite_false]
    by_cases h1 : id < (tbl (p + n / 2)).nse_id
    · simp only [h1, if_true]
      have hk2 : k < n / 2 := by
        by_contra hc
        have hc2 : n / 2 ≤ k := by omega
        rcases Nat.eq_or_lt_of_le hc2 with he | hl
        · rw [he, hid] at h1; omega
        · have := hs (n / 2) k hl hk
          rw [hid] at this; omega
      exact ih (n / 2) (Nat.div_lt_self (by omega) (by decide)) p
        (fun i j hij hj => hs i j hij (by omega)) k hk2 hid
    · simp only [h1, if_false]
      by_cases h2 : id > (tbl (p + n / 2)).nse_id
      · simp only [h2, if_true]
        have hk2 : n / 2 < k := by
          by_contra hc
          have hc2 : k ≤ n / 2 := by omega
          rcases Nat.eq_or_lt_of_le hc2 with he | hl
          · rw [← he, hid] at h2; omega
          · have := hs k (n / 2) hl (by omega)
            rw [hid] at this; omega
        have hsub : ns_sorted tbl (p + (n / 2 + 1)) (n - (n / 2 + 1)) := by
          intro i j hij hj
          have := hs (n / 2 + 1 + i) (n / 2 + 1 + j) (by omega) (by omega)
          simpa [Nat.add_assoc] using this
        have := ih (n - (n / 2 + 1)) (by omega) (p + (n / 2 + 1)) hsub
          (k - (n / 2 + 1)) (by omega)
        have e : p + (n / 2 + 1) + (k - (n / 2 + 1)) = p + k := by omega
        rw [e] at this
        exact this hid
      · simp only [h2, if_false]
        have he : (tbl (p + n / 2)).nse_id = id := by omega
        have hk2 : k = n / 2 := by
          by_contra hc
          rcases Nat.lt_or_gt_of_ne hc with hl | hl
          · have := hs k (n / 2) hl (by omega); omega
          · have := hs (n / 2) k hl hk; omega
        rw [hk2]

/-- Absent case of the binary search: no sortedness is needed. -/
theorem ns_search_absent (tbl : Nat → _ns_entry) (id : Nat) :
    ∀ n p, (∀ k, k < n → (tbl (p + k)).nse_id ≠ id) →
      _ns_entry_search tbl p n id = none := by
  intro n
  induction n using Nat.strong_induction_on with
  | _ n ih =>
    intro p hab
    rw [_ns_entry_search]
    by_cases hn : n = 0
    · simp [hn]
    · simp only [hn, dite_false]
      by_cases h1 : id < (tbl (p + n / 2)).nse_id
      · simp only [h1, if_true]
        exact ih (n / 2) (Nat.div_lt_self (by omega) (by decide)) p
          (fun k hk => hab k (by omega))
      · simp only [h1, if_false]
        by_cases h2 : id > (tbl (p + n / 2)).nse_id
        · simp only [h2, if_true]
          apply ih (n - (n / 2 + 1)) (by omega)
          intro k hk
          have := hab (n / 2 + 1 + k) (by omega)
          simpa [Nat.add_assoc] using this
        · exfalso
          exact hab (n / 2) (by omega) (by omega)

/-! ### Field lemmas -/

@[simp] theorem ev_pkt_base (p : _pkt) (e : Event) : (p.ev e).pkt_base = p.pkt_base := rfl
@[simp] theorem ev_pkt_end (p : _pkt) (e : Event) : (p.ev e).pkt_end = p.pkt_end := rfl
@[simp] theorem ev_pkt_nxthdr (p : _pkt) (e : Event) : (p.ev e).pkt_nxthdr = p.pkt_nxthdr := rfl
@[simp] theorem ev_pkt_dcb (p : _pkt) (e : Event) : (p.ev e).pkt_dcb = p.pkt_dcb := rfl
@[simp] theorem ev_pkt_dcb_top (p : _pkt) (e : Event) : (p.ev e).pkt_dcb_top = p.pkt_dcb_top := rfl
@[simp] theorem ev_pkt_dcb_end (p : _pkt) (e : Event) : (p.ev e).pkt_dcb_end = p.pkt_dcb_end := rfl
@[simp] theorem ev_arena (p : _pkt) (e : Event) : (p.ev e).arena = p.arena := rfl
@[simp] theorem ev_log (p : _pkt) (e : Event) : (p.ev e).log = p.log ++ [e] := rfl

@[simp] theorem store_pkt_base (p : _pkt) (a : Nat) (f : _dcb → _dcb) :
    (p.store a f).pkt_base = p.pkt_base := rfl
@[simp] theorem store_pkt_end (p : _pkt) (a : Nat) (f : _dcb → _dcb) :
    (p.store a f).pkt_end = p.pkt_end := rfl
@[simp] theorem store_pkt_nxthdr (p : _pkt) (a : Nat) (f : _dcb → _dcb) :
    (p.store a f).pkt_nxthdr = p.pkt_nxthdr := rfl
@[simp] theorem store_pkt_dcb (p : _pkt) (a : Nat) (f : _dcb → _dcb) :
    (p.store a f).pkt_dcb = p.pkt_dcb := rfl
@[simp] theorem store_pkt_dcb_top (p : _pkt) (a : Nat) (f : _dcb → _dcb) :
    (p.store a f).pkt_dcb_top = p.pkt_dcb_top := rfl
@[simp] theorem store_pkt_dcb_end (p : _pkt) (a : Nat) (f : _dcb → _dcb) :
    (p.store a f).pkt_dcb_end = p.pkt_dcb_end := rfl
@[simp] theorem store_log (p : _pkt) (a : Nat) (f : _dcb → _dcb) :
    (p.store a f).log = p.log := rfl

@[simp] theorem calls_append (a b : List Event) : calls (a ++ b) = calls a ++ calls b := by
  simp [calls, List.filterMap_append]

@[simp] theorem calls_nil : calls [] = [] := rfl
@[simp] theorem calls_read (a n : Nat) (l : List Event) :
    calls (Event.read a n :: l) = calls l := rfl
@[simp] theorem calls_warn (w : Warn) (l : List Event) :
    calls (Event.warn w :: l) = calls l := rfl
@[simp] theorem calls_call (s : Nat) (l : List Event) :
    calls (Event.call s :: l) = s :: calls l := rfl

@[simp] theorem calls_csum_reads (mem : Mem) (iph : Nat) :
    calls (_ip_csum_reads mem iph) = [] := by
  simp only [calls, List.filterMap_eq_nil_iff]
  intro a ha
  simp only [_ip_csum_reads, List.mem_cons, List.mem_map, List.mem_range] at ha
  rcases ha with rfl | ⟨i, _, rfl⟩ <;> rfl

/-- The decoder past its header checks: the rest of `ipv4_decode` runs on
`ipv4_checked`. -/
theorem ipv4_decode_checked (T : Target) (mem : Mem) (p : _pkt) (fuel : Nat)
    (h : gates_pass T mem p) :
    ipv4_decode T mem (fuel + 1) p =
      if iph_frag_off T mem p.pkt_nxthdr &&& ipfmask T ≠ 0 then
        .ok { (match decode_layer (ipv4_checked mem p) (p_fragment T) with
                | (some dcb, q) => q.store dcb (fun d => { d with x_iph := some p.pkt_nxthdr })
                | (none, q) => q) with
              pkt_nxthdr := p.pkt_nxthdr + ip_len T mem p.pkt_nxthdr }
      else
        match subproto_call T mem fuel (pmap (iph_protocol mem p.pkt_nxthdr))
            ((ipv4_checked mem p).ev (.read (p.pkt_nxthdr + 9) 1)) p.pkt_nxthdr none with
        | .error e => .error e
        | .ok q => .ok { q with pkt_nxthdr := p.pkt_nxthdr + ip_len T mem p.pkt_nxthdr } := by
  obtain ⟨h1, h2, h3, h4, h5⟩ := h
  have g1 : ¬ (p.pkt_nxthdr + sizeof_pkt_iphdr > p.pkt_end) := by
    simp only [sizeof_pkt_iphdr]; omega
  have g2 : ¬ (iph_ihl mem p.pkt_nxthdr < 5) := by omega
  have g4 : ¬ (p.pkt_nxthdr + (iph_ihl mem p.pkt_nxthdr <<< 2) > p.pkt_end) := by
    simp only [Nat.shiftLeft_eq]; omega
  simp only [ipv4_decode, g1, g2, h3, g4, h5, ev_pkt_nxthdr, ev_pkt_end, ne_eq,
    not_true_eq_false, not_false_eq_true, if_false, if_true]
  rfl

/-- A header that fails a check is dropped with the arena as it was and
no sub-decoder called. -/
theorem ipv4_decode_rejects (T : Target) (mem : Mem) (p : _pkt) (fuel : Nat)
    (h : ¬ gates_pass T mem p) :
    ∃ q, ipv4_decode T mem (fuel + 1) p = .ok q ∧ arena_untouched p q ∧
      calls q.log = calls p.log := by
  simp only [ipv4_decode, sizeof_pkt_iphdr, Nat.shiftLeft_eq, ev_pkt_nxthdr, ev_pkt_end]
  split
  · exact ⟨_, rfl, ⟨rfl, rfl, rfl, rfl⟩, rfl⟩
  split
  · exact ⟨_, rfl, ⟨rfl, rfl, rfl, rfl⟩, by simp⟩
  split
  · exact ⟨_, rfl, ⟨rfl, rfl, rfl, rfl⟩, by simp⟩
  split
  · exact ⟨_, rfl, ⟨rfl, rfl, rfl, rfl⟩, by simp⟩
  split
  · exact ⟨_, rfl, ⟨rfl, rfl, rfl, rfl⟩, by simp⟩
  · rename_i h1 h2 h3 h4 h5
    exfalso
    apply h
    exact ⟨by omega, by omega, by simpa using h3, by omega, by simpa using h5⟩

/-! ### Byte order and the fragment test -/

theorem and_bytes (a b c d : Nat) (ha : a < 256) (hc : c < 256) :
    (256 * b + a) &&& (256 * d + c) = 256 * (b &&& d) + (a &&& c) := by
  have hac : a &&& c < 2 ^ 8 := Nat.and_lt_two_pow a (by simpa using hc)
  have ha' : a < 2 ^ 8 := by simpa using ha
  have hc' : c < 2 ^ 8 := by simpa using hc
  apply Nat.eq_of_testBit_eq
  intro j
  have e1 := Nat.testBit_mul_pow_two_add b ha' j
  have e2 := Nat.testBit_mul_pow_two_add d hc' j
  have e3 := Nat.testBit_mul_pow_two_add (b &&& d) hac j
  simp only [Nat.reducePow] at e1 e2 e3
  rw [Nat.testBit_and, e1, e2, e3]
  split <;> simp

theorem and_3f (b : Nat) : b &&& 0x3f = 0 ↔ b &&& 0x20 = 0 ∧ b &&& 0x1f = 0 := by
  have h : (0x3f : Nat) = 0x20 ||| 0x1f := by decide
  rw [h, Nat.and_or_distrib_left]
  constructor
  · intro h0
    constructor
    · apply Nat.eq_of_testBit_eq
      intro j
      have := congrArg (fun x => x.testBit j) h0
      simp only [Nat.testBit_or, Nat.zero_testBit, Bool.or_eq_false_iff] at this
      simpa using this.1
    · apply Nat.eq_of_testBit_eq
      intro j
      have := congrArg (fun x => x.testBit j) h0
      simp only [Nat.testBit_or, Nat.zero_testBit, Bool.or_eq_false_iff] at this
      simpa using this.2
  · rintro ⟨h1, h2⟩
    rw [h1, h2]; rfl

theorem rd8_lt (mem : Mem) (a : Nat) : rd8 mem a < 256 := Nat.mod_lt _ (by decide)

theorem rd16_lt (T : Target) (mem : Mem) (a : Nat) : rd16 T mem a < 65536 := by
  have h0 := rd8_lt mem a
  have h1 := rd8_lt mem (a + 1)
  unfold rd16
  split <;> omega

/-- Big-endian value of a loaded 16-bit field. -/
theorem be16toh_rd16 (T : Target) (mem : Mem) (a : Nat) :
    be16toh T (rd16 T mem a) = 256 * rd8 mem a + rd8 mem (a + 1) := by
  have h0 := rd8_lt mem a
  have h1 := rd8_lt mem (a + 1)
  unfold be16toh rd16 bswap16
  split <;> omega

/-- The fragment test of `ipv4_decode` reads the MF bit and the offset of the
wire format. -/
theorem frag_test_iff (T : Target) (mem : Mem) (iph : Nat) :
    iph_frag_off T mem iph &&& ipfmask T ≠ 0 ↔
      (be16toh T (iph_frag_off T mem iph) &&& IP_MF ≠ 0 ∨
        be16toh T (iph_frag_off T mem iph) &&& IP_OFFMASK ≠ 0) := by
  have h0 := rd8_lt mem (iph + 6)
  have h1 := rd8_lt mem (iph + 6 + 1)
  unfold iph_frag_off
  rw [be16toh_rd16]
  have hmf : IP_MF = 256 * 0x20 + 0 := by decide
  have hoff : IP_OFFMASK = 256 * 0x1f + 0xff := by decide
  rw [hmf, hoff, and_bytes _ _ _ _ h1 (by decide), and_bytes _ _ _ _ h1 (by decide)]
  have key := and_3f (rd8 mem (iph + 6))
  have hz : rd8 mem (iph + 6 + 1) &&& 0 = 0 := by simp
  cases hT : T.bigEndian with
  | true =>
    have hm : ipfmask T = 256 * 0x3f + 0xff := by
      simp only [ipfmask, const_be16, hT]; decide
    have hr : rd16 T mem (iph + 6) = 256 * rd8 mem (iph + 6) + rd8 mem (iph + 6 + 1) := by
      simp [rd16, hT]
    rw [hm, hr, and_bytes _ _ _ _ h1 (by decide)]
    omega
  | false =>
    have hm : ipfmask T = 256 * 0xff + 0x3f := by
      simp only [ipfmask, const_be16, hT]; decide
    have hr : rd16 T mem (iph + 6) = 256 * rd8 mem (iph + 6 + 1) + rd8 mem (iph + 6) := by
      simp [rd16, hT]; omega
    rw [hm, hr, and_bytes _ _ _ _ h0 (by decide)]
    omega

/-! ### The decoder returns -/

theorem pmap_cases (x : Nat) :
    pmap x = 0 ∨ pmap x = 1 ∨ pmap x = 3 ∨ pmap x = 4 ∨ pmap x = 5 ∨ pmap x = 7 ∨
      pmap x = 8 := by
  unfold pmap
  split_ifs <;> simp

/-- Allocation of a layer moves neither the cursor nor the buffer end. -/
theorem decode_layer_frame (p : _pkt) (pr : _proto) :
    (decode_layer p pr).2.pkt_nxthdr = p.pkt_nxthdr ∧
      (decode_layer p pr).2.pkt_end = p.pkt_end := by
  unfold decode_layer _decode_layer _decode_dcb_alloc
  simp only []
  split_ifs <;> exact ⟨rfl, rfl⟩

theorem tunnel_layer_frame (p : _pkt) (pr : _proto) (f : Nat → _dcb → _dcb) :
    fuel_for (match decode_layer p pr with
      | (some dcb, q) => q.store dcb (f dcb)
      | (none, q) => q) = fuel_for p := by
  have h := decode_layer_frame p pr
  rcases hd : decode_layer p pr with ⟨_ | dcb, q⟩ <;> rw [hd] at h <;>
    simp only [fuel_for, store_pkt_end, store_pkt_nxthdr] <;> rw [h.1, h.2]

theorem returns_aux (T : Target) (mem : Mem) : ∀ f,
    (∀ p, fuel_for p ≤ f → ∃ q, ipv4_decode T mem f p = .ok q) ∧
    (∀ p iph ah, fuel_for p + 1 ≤ f → ∃ q, tunnel_decode T mem f p iph ah = .ok q) ∧
    (∀ x p iph ah, fuel_for p + 2 ≤ f → (ah = none → fuel_for p + 4 ≤ f) →
      ∃ q, subproto_call T mem f (pmap x) p iph ah = .ok q) ∧
    (∀ p iph bogus, 1 ≤ f → (bogus = none → fuel_for p + 3 ≤ f) →
      ∃ q, ah_decode T mem f p iph bogus = .ok q) := by
  intro f
  induction f with
  | zero =>
    refine ⟨?_, ?_, ?_, ?_⟩
    · intro p h; simp [fuel_for] at h
    · intro p iph ah h; omega
    · intro x p iph ah h; omega
    · intro p iph bogus h; omega
  | succ f ih =>
    obtain ⟨ih1, ih2, ih3, ih4⟩ := ih
    refine ⟨?_, ?_, ?_, ?_⟩
    · intro p hp
      by_cases hg : gates_pass T mem p
      · rw [ipv4_decode_checked T mem p f hg]
        split
        · exact ⟨_, rfl⟩
        · have hfu : fuel_for ((ipv4_checked mem p).ev (.read (p.pkt_nxthdr + 9) 1)) + 4 ≤ f := by
            obtain ⟨h1, h2, h3, h4, h5⟩ := hg
            simp only [fuel_for, ev_pkt_end, ev_pkt_nxthdr, ipv4_checked, Nat.shiftLeft_eq] at hp ⊢
            omega
          obtain ⟨q, hq⟩ := ih3 (iph_protocol mem p.pkt_nxthdr) _ p.pkt_nxthdr none
            (by omega) (fun _ => hfu)
          rw [hq]
          exact ⟨_, rfl⟩
      · obtain ⟨q, hq, _⟩ := ipv4_decode_rejects T mem p f hg
        exact ⟨q, hq⟩
    · intro p iph ah hp
      simp only [tunnel_decode]
      apply ih1
      rw [tunnel_layer_frame p (p_tunnel T) (fun _ d => { d with x_iph := some iph, x_ah := ah })]
      omega
    · intro x p iph ah hp hp4
      have hfe : fuel_for (p.ev (.call (pmap x))) = fuel_for p := rfl
      simp only [subproto_call]
      rcases pmap_cases x with h | h | h | h | h | h | h <;> rw [h] <;>
        simp only [subproto, List.getElem?_cons_zero, List.getElem?_cons_succ]
      · exact ⟨_, rfl⟩
      · exact ⟨_, rfl⟩
      · apply ih2; rw [← h, hfe]; omega
      · exact ⟨_, rfl⟩
      · exact ⟨_, rfl⟩
      · exact ⟨_, rfl⟩
      · apply ih4
        · have : 1 ≤ fuel_for p := by simp [fuel_for]
          omega
        · intro hn
          rw [← h, hfe]
          have := hp4 hn
          omega
    · intro p iph bogus _ hp
      cases bogus with
      | some b => exact ⟨p.ev (.warn .ah_nesting), by simp [ah_decode]⟩
      | none =>
        have hp3 := hp rfl
        simp only [ah_decode, ne_eq, not_true_eq_false, if_false, ev_pkt_nxthdr, ev_pkt_end]
        split
        · exact ⟨_, rfl⟩
        split
        · exact ⟨_, rfl⟩
        split
        · exact ⟨_, rfl⟩
        · apply ih3
          · simp only [fuel_for, ev_pkt_end, ev_pkt_nxthdr] at hp3 ⊢
            have : (p.pkt_end - (p.pkt_nxthdr + T.sizeof_pkt_ahhdr +
                ((ah_ahl mem p.pkt_nxthdr <<< 2) - 2))) / 20 ≤ (p.pkt_end - p.pkt_nxthdr) / 20 :=
              Nat.div_le_div_right (by omega)
            omega
          · intro hc; cases hc

/-- The decoder returns: with a call-depth budget of `fuel_for p` or more,
`ipv4_decode` yields a packet state. -/
theorem ipv4_decode_returns (T : Target) (mem : Mem) (p : _pkt) (fuel : Nat)
    (h : fuel_for p ≤ fuel) : ∃ q, ipv4_decode T mem fuel p = .ok q :=
  (returns_aux T mem fuel).1 p h


/-! ### The checksum -/

theorem and_ffff (x : Nat) : x &&& 0xffff = x % 65536 := Nat.and_pow_two_sub_one_eq_mod x 16

theorem shr16 (x : Nat) : x >>> 16 = x / 65536 := Nat.shiftRight_eq_div_pow x 16

theorem and_bit31 (x : Nat) (h : x < 2 ^ 31) : x &&& 0x80000000 = 0 := by
  have h1 : x &&& 2 ^ 31 = (x.testBit 31).toNat * 2 ^ 31 := Nat.and_two_pow x 31
  rw [Nat.testBit_lt_two_pow h] at h1
  simpa using h1

/-- Closed form of the `while` loop of `_ip_csum`. -/
theorem _ip_csum_fold_eq : ∀ k s, s ≤ k + 65535 →
    _ip_csum_fold k s = if s = 0 then 0 else (s - 1) % 65535 + 1 := by
  intro k
  induction k with
  | zero =>
    intro s hs
    simp only [_ip_csum_fold]
    split <;> omega
  | succ k ih =>
    intro s hs
    simp only [_ip_csum_fold, shr16, and_ffff]
    by_cases h : s / 65536 = 0
    · simp only [h, ne_eq, not_true_eq_false, if_false]
      split <;> omega
    · simp only [h, ne_eq, not_false_eq_true, if_true]
      rw [ih _ (by omega)]
      split <;> split <;> omega

/-- The `while` loop of `_ip_csum` ends by its exit test, not by its budget. -/
theorem _ip_csum_fold_exit (s : Nat) : _ip_csum_fold s s >>> 16 = 0 := by
  rw [_ip_csum_fold_eq s s (by omega), shr16]
  split <;> omega

theorem _ip_csum_loop_eq (T : Target) (mem : Mem) (tmp : Nat) : ∀ n i s,
    s + 65535 * n < 2 ^ 31 →
    _ip_csum_loop T mem tmp n i s = s + wsum (hdr_word T mem tmp) n i := by
  intro n
  induction n with
  | zero => intro i s _; simp [_ip_csum_loop, wsum]
  | succ n ih =>
    intro i s hs
    have hw := rd16_lt T mem (tmp + 2 * i)
    have h1 : (s + rd16 T mem (tmp + 2 * i)) % 2 ^ 32 = s + rd16 T mem (tmp + 2 * i) :=
      Nat.mod_eq_of_lt (by omega)
    have h2 : (s + rd16 T mem (tmp + 2 * i)) &&& 0x80000000 = 0 := and_bit31 _ (by omega)
    simp only [_ip_csum_loop, h1, h2, ne_eq, not_true_eq_false, if_false, wsum, hdr_word]
    rw [ih (i + 1) _ (by omega)]
    omega

theorem wsum_le (w : Nat → Nat) (hw : ∀ i, w i < 65536) : ∀ n i, wsum w n i ≤ 65535 * n := by
  intro n
  induction n with
  | zero => intro i; simp [wsum]
  | succ n ih =>
    intro i
    have := ih (i + 1)
    have := hw i
    simp only [wsum]
    omega

theorem iph_ihl_lt (mem : Mem) (iph : Nat) : iph_ihl mem iph < 16 := Nat.mod_lt _ (by decide)

/-- Closed form of `_ip_csum`: the one's complement of the folded word sum. -/
theorem _ip_csum_eq (T : Target) (mem : Mem) (iph : Nat) :
    _ip_csum T mem iph =
      65535 - (if wsum (hdr_word T mem iph) (2 * iph_ihl mem iph) 0 = 0 then 0
        else (wsum (hdr_word T mem iph) (2 * iph_ihl mem iph) 0 - 1) % 65535 + 1) := by
  have hl := iph_ihl_lt mem iph
  have hs := wsum_le (hdr_word T mem iph) (fun i => rd16_lt T mem _) (2 * iph_ihl mem iph) 0
  have e : iph_ihl mem iph <<< 1 = 2 * iph_ihl mem iph := by
    rw [Nat.shiftLeft_eq]; omega
  simp only [_ip_csum, e]
  rw [_ip_csum_loop_eq T mem iph _ 0 0 (by omega), Nat.zero_add,
    _ip_csum_fold_eq _ _ (by omega), and_ffff]
  split <;> omega

/-- The checksum verifies exactly when the word sum is a positive multiple of
`0xffff`. -/
theorem _ip_csum_zero_iff (T : Target) (mem : Mem) (iph : Nat) :
    _ip_csum T mem iph = 0 ↔
      0 < wsum (hdr_word T mem iph) (2 * iph_ihl mem iph) 0 ∧
        wsum (hdr_word T mem iph) (2 * iph_ihl mem iph) 0 % 65535 = 0 := by
  rw [_ip_csum_eq]
  split <;> omega

/-- Changing one word of a sum. -/
theorem wsum_update (w w' : Nat → Nat) (k : Nat) (h : ∀ j, j ≠ k → w' j = w j) :
    ∀ n i, wsum w' n i + (if i ≤ k ∧ k < i + n then w k else 0) =
      wsum w n i + (if i ≤ k ∧ k < i + n then w' k else 0) := by
  intro n
  induction n with
  | zero =>
    intro i
    have c : ¬ (i ≤ k ∧ k < i + 0) := by omega
    rw [if_neg c, if_neg c]
    rfl
  | succ n ih =>
    intro i
    have := ih (i + 1)
    simp only [wsum]
    by_cases hik : i = k
    · subst hik
      have c1 : ¬ (i + 1 ≤ i ∧ i < i + 1 + n) := by omega
      have c2 : (i ≤ i ∧ i < i + (n + 1)) := by omega
      rw [if_neg c1, if_neg c1] at this
      rw [if_pos c2, if_pos c2]
      omega
    · rw [h i hik]
      by_cases c : i ≤ k ∧ k < i + (n + 1)
      · have c1 : i + 1 ≤ k ∧ k < i + 1 + n := by omega
        rw [if_pos c1, if_pos c1] at this
        rw [if_pos c, if_pos c]
        omega
      · have c1 : ¬ (i + 1 ≤ k ∧ k < i + 1 + n) := by omega
        rw [if_neg c1, if_neg c1] at this
        rw [if_neg c, if_neg c]
        omega

theorem rd8_csum_cleared (mem : Mem) (iph a : Nat) :
    rd8 (csum_cleared mem iph) a = if a = iph + 10 ∨ a = iph + 11 then 0 else rd8 mem a := by
  unfold rd8 csum_cleared
  split <;> rfl


/-! ### Nested headers, AH and the sub-decoders -/

@[simp] theorem warns_append (a b : List Event) : warns (a ++ b) = warns a ++ warns b := by
  simp [warns, List.filterMap_append]
@[simp] theorem warns_nil : warns [] = [] := rfl
@[simp] theorem warns_read (a n : Nat) (l : List Event) :
    warns (Event.read a n :: l) = warns l := rfl
@[simp] theorem warns_warn (w : Warn) (l : List Event) :
    warns (Event.warn w :: l) = w :: warns l := rfl
@[simp] theorem warns_call (s : Nat) (l : List Event) :
    warns (Event.call s :: l) = warns l := rfl

@[simp] theorem warns_csum_reads (mem : Mem) (iph : Nat) :
    warns (_ip_csum_reads mem iph) = [] := by
  simp only [warns, List.filterMap_eq_nil_iff]
  intro a ha
  simp only [_ip_csum_reads, List.mem_cons, List.mem_map, List.mem_range] at ha
  rcases ha with rfl | ⟨i, _, rfl⟩ <;> rfl

/-- The nested call of `ah_decode`: one warning, nothing else. -/
theorem ah_decode_nested (T : Target) (mem : Mem) (fuel : Nat) (p : _pkt) (iph b : Nat) :
    ah_decode T mem (fuel + 1) p iph (some b) = .ok (p.ev (.warn .ah_nesting)) := by
  simp [ah_decode]

/-- The outcome of `decode_layer` when there is room: the block at the old top
gets its `next` and its owner, the top moves up by the size of the block. -/
theorem decode_layer_room (p : _pkt) (pr : _proto)
    (h : p.pkt_dcb_top + pr.p_dcb_sz ≤ p.pkt_dcb_end) :
    decode_layer p pr =
      (some p.pkt_dcb_top,
        ({ p with pkt_dcb_top := p.pkt_dcb_top + pr.p_dcb_sz }.store p.pkt_dcb_top
          (fun d => { d with dcb_next := p.pkt_dcb_top + pr.p_dcb_sz })).store p.pkt_dcb_top
          (fun d => { d with dcb_proto := some pr })) := by
  have h' : ¬ (p.pkt_dcb_top + pr.p_dcb_sz > p.pkt_dcb_end) := by omega
  simp only [decode_layer, _decode_layer, _decode_dcb_alloc, h', if_false]

/-- The outcome of `decode_layer` when there is no room: no block, and the top
moved up all the same. -/
theorem decode_layer_full (p : _pkt) (pr : _proto)
    (h : p.pkt_dcb_end < p.pkt_dcb_top + pr.p_dcb_sz) :
    decode_layer p pr = (none, { p with pkt_dcb_top := p.pkt_dcb_top + pr.p_dcb_sz }) := by
  have h' : p.pkt_dcb_top + pr.p_dcb_sz > p.pkt_dcb_end := by omega
  simp only [decode_layer, _decode_layer, _decode_dcb_alloc, h', if_true]

/-- The header checks look at the cursor and the buffer end only. -/
theorem gates_pass_congr (T : Target) (mem : Mem) (p q : _pkt)
    (h1 : q.pkt_nxthdr = p.pkt_nxthdr) (h2 : q.pkt_end = p.pkt_end) :
    gates_pass T mem q ↔ gates_pass T mem p := by
  simp only [gates_pass, h1, h2]

/-- The demultiplexing step of `ah_decode`: the nested sub-decoder is the one
that `subproto[pmap[ah->protocol]]` selects, it gets the AH header as its
context, and the cursor it starts from is the AH start plus
`sizeof(struct pkt_ahhdr) + (ahl << 2) - 2`. -/
theorem ah_decode_demux (T : Target) (mem : Mem) (p : _pkt) (iph f : Nat)
    (hfit : p.pkt_nxthdr + T.sizeof_pkt_ahhdr ≤ p.pkt_end)
    (hlen : 4 ≤ ah_ahl mem p.pkt_nxthdr)
    (hfit2 : p.pkt_nxthdr + T.sizeof_pkt_ahhdr + (4 * ah_ahl mem p.pkt_nxthdr - 2) ≤ p.pkt_end) :
    ∃ r, ah_decode T mem (f + 1) p iph none =
        subproto_call T mem f (pmap (ah_protocol mem p.pkt_nxthdr)) r iph (some p.pkt_nxthdr) ∧
      r.pkt_nxthdr = p.pkt_nxthdr + T.sizeof_pkt_ahhdr + (4 * ah_ahl mem p.pkt_nxthdr - 2) ∧
      arena_untouched p r := by
  have e5 : ∀ x : Nat, x <<< 2 = 4 * x := by
    intro x; rw [Nat.shiftLeft_eq]; omega
  have g1 : ¬ (p.pkt_nxthdr + T.sizeof_pkt_ahhdr > p.pkt_end) := by omega
  have g2 : ¬ (ah_ahl mem p.pkt_nxthdr < 4) := by omega
  have g3 : ¬ (p.pkt_nxthdr + T.sizeof_pkt_ahhdr + (4 * ah_ahl mem p.pkt_nxthdr - 2) >
      p.pkt_end) := by omega
  simp only [ah_decode, ne_eq, not_true_eq_false, if_false, ev_pkt_nxthdr, ev_pkt_end, e5,
    g1, g2, g3]
  exact ⟨_, rfl, rfl, ⟨rfl, rfl, rfl, rfl⟩⟩

/-- What `raw_decode`, `tcp_decode` and `udp_decode` store in the IP-header and
AH fields of the block they record: the arguments they were called with. -/
theorem sub_decoders_store_iph (T : Target) (mem : Mem) (p : _pkt) (iph : Nat)
    (ah : Option Nat) :
    (p.pkt_dcb_top + T.sizeof_ip_dcb ≤ p.pkt_dcb_end →
      ((raw_decode T p iph ah).arena p.pkt_dcb_top).x_iph = some iph ∧
      ((raw_decode T p iph ah).arena p.pkt_dcb_top).x_ah = ah) ∧
    (p.pkt_nxthdr + 20 ≤ p.pkt_end →
      p.pkt_nxthdr + 4 * tcph_doff mem p.pkt_nxthdr ≤ p.pkt_end →
      p.pkt_dcb_top + T.sizeof_tcp_dcb ≤ p.pkt_dcb_end →
      ((tcp_decode T mem p iph ah).arena p.pkt_dcb_top).x_iph = some iph ∧
      ((tcp_decode T mem p iph ah).arena p.pkt_dcb_top).x_ah = ah) ∧
    (p.pkt_nxthdr + 8 ≤ p.pkt_end →
      p.pkt_dcb_top + T.sizeof_udp_dcb ≤ p.pkt_dcb_end →
      ((udp_decode T p iph ah).arena p.pkt_dcb_top).x_iph = some iph ∧
      ((udp_decode T p iph ah).arena p.pkt_dcb_top).x_ah = ah) := by
  have e5 : ∀ x : Nat, x <<< 2 = 4 * x := by
    intro x; rw [Nat.shiftLeft_eq]; omega
  refine ⟨?_, ?_, ?_⟩
  · intro h
    have g : ¬ (p.pkt_dcb_top + T.sizeof_ip_dcb > p.pkt_dcb_end) := by omega
    simp [raw_decode, decode_layer, _decode_layer, _decode_dcb_alloc, p_ipraw, g, _pkt.store]
  · intro h1 h2 h3
    have g1 : ¬ (p.pkt_nxthdr + sizeof_pkt_tcphdr > p.pkt_end) := by
      simp only [sizeof_pkt_tcphdr]; omega
    have g2 : ¬ (p.pkt_nxthdr + 4 * tcph_doff mem p.pkt_nxthdr > p.pkt_end) := by omega
    have g : ¬ (p.pkt_dcb_top + T.sizeof_tcp_dcb > p.pkt_dcb_end) := by omega
    simp [tcp_decode, decode_layer, _decode_layer, _decode_dcb_alloc, p_tcp, g, g1, g2, e5,
      _pkt.store]
  · intro h1 h3
    have g1 : ¬ (p.pkt_nxthdr + sizeof_pkt_udphdr > p.pkt_end) := by
      simp only [sizeof_pkt_udphdr]; omega
    have g : ¬ (p.pkt_dcb_top + T.sizeof_udp_dcb > p.pkt_dcb_end) := by omega
    simp [udp_decode, decode_layer, _decode_layer, _decode_dcb_alloc, p_udp, g, g1, _pkt.store]

/-! ### Tunnel levels and the arena -/

theorem arena_step_refl (p q : _pkt) (ha : q.arena = p.arena)
    (ht : q.pkt_dcb_top = p.pkt_dcb_top) (he : q.pkt_dcb_end = p.pkt_dcb_end) :
    arena_step p q :=
  ⟨he, by omega, fun a _ => by rw [ha], Or.inl (by rw [ha]), fun _ => ha⟩

/-- The step of `decode_layer` followed by stores into the body of the block. -/
theorem layer_step (p : _pkt) (pr : _proto) (g : Nat → _dcb → _dcb)
    (hg : ∀ a d, (g a d).dcb_proto = d.dcb_proto) (hl : pr.p_label ≠ "iptunnel") :
    arena_step p (match decode_layer p pr with
      | (some dcb, q) => q.store dcb (g dcb)
      | (none, q) => q) := by
  by_cases h : p.pkt_dcb_top + pr.p_dcb_sz ≤ p.pkt_dcb_end
  · rw [decode_layer_room p pr h]
    refine ⟨rfl, by simp, ?_, Or.inr ⟨pr, ?_, hl⟩, ?_⟩
    · intro a ha
      simp [_pkt.store, ha]
    · simp [_pkt.store, hg]
    · intro hc
      exfalso
      omega
  · rw [decode_layer_full p pr (by omega)]
    exact ⟨rfl, by simp, fun a _ => rfl, Or.inl rfl, fun _ => rfl⟩

theorem arena_step_of_eq (p p' q : _pkt) (ha : p'.arena = p.arena)
    (ht : p'.pkt_dcb_top = p.pkt_dcb_top) (he : p'.pkt_dcb_end = p.pkt_dcb_end)
    (h : arena_step p' q) : arena_step p q := by
  obtain ⟨h1, h2, h3, h4, h5⟩ := h
  rw [ha, ht, he] at *
  exact ⟨h1, h2, h3, h4, h5⟩

theorem raw_decode_step (T : Target) (p : _pkt) (iph : Nat) (ah : Option Nat) :
    arena_step p (raw_decode T p iph ah) := by
  unfold raw_decode
  exact layer_step p (p_ipraw T) (fun _ d => { d with x_iph := some iph, x_ah := ah })
    (fun _ _ => rfl) (by show "ipraw" ≠ "iptunnel"; decide)

theorem tcp_decode_step (T : Target) (mem : Mem) (p : _pkt) (iph : Nat) (ah : Option Nat) :
    arena_step p (tcp_decode T mem p iph ah) := by
  unfold tcp_decode
  split
  · exact arena_step_refl _ _ rfl rfl rfl
  · simp only []
    split
    · exact arena_step_refl _ _ rfl rfl rfl
    · refine arena_step_of_eq p _ _ rfl rfl rfl ?_
      exact layer_step _ (p_tcp T)
        (fun _ d => { d with x_iph := some iph, x_ah := ah, x_hdr := some p.pkt_nxthdr })
        (fun _ _ => rfl) (by show "tcp" ≠ "iptunnel"; decide)

theorem udp_decode_step (T : Target) (p : _pkt) (iph : Nat) (ah : Option Nat) :
    arena_step p (udp_decode T p iph ah) := by
  unfold udp_decode
  simp only []
  split
  · exact arena_step_refl _ _ rfl rfl rfl
  · refine arena_step_of_eq p { p with pkt_nxthdr := p.pkt_nxthdr + sizeof_pkt_udphdr } _
      rfl rfl rfl ?_
    by_cases h : p.pkt_dcb_top + (p_udp T).p_dcb_sz ≤ p.pkt_dcb_end
    · rw [decode_layer_room { p with pkt_nxthdr := p.pkt_nxthdr + sizeof_pkt_udphdr } _ h]
      refine ⟨rfl, by simp, ?_, Or.inr ⟨p_udp T, ?_, by show "udp" ≠ "iptunnel"; decide⟩, ?_⟩
      · intro a ha
        simp [_pkt.store, ha]
      · simp [_pkt.store]
      · intro hc
        exfalso
        have : p.pkt_dcb_end < p.pkt_dcb_top := hc
        omega
    · rw [decode_layer_full { p with pkt_nxthdr := p.pkt_nxthdr + sizeof_pkt_udphdr } _
        (by simpa using h)]
      exact ⟨rfl, by simp, fun a _ => rfl, Or.inl rfl, fun _ => rfl⟩

theorem esp_decode_step (p : _pkt) (iph : Nat) (ah : Option Nat) :
    arena_step p (esp_decode p iph ah) := by
  unfold esp_decode
  simp only []
  split
  · exact arena_step_refl _ _ rfl rfl rfl
  · refine arena_step_of_eq p { p with pkt_nxthdr := p.pkt_nxthdr + sizeof_pkt_esphdr } _
      rfl rfl rfl ?_
    have := layer_step { p with pkt_nxthdr := p.pkt_nxthdr + sizeof_pkt_esphdr } p_esp
      (fun _ d => d) (fun _ _ => rfl) (by decide)
    rcases hd : decode_layer { p with pkt_nxthdr := p.pkt_nxthdr + sizeof_pkt_esphdr } p_esp
      with ⟨_ | dcb, q⟩
    · rw [hd] at this; exact this
    · rw [hd] at this
      have e : q.store dcb (fun d => d) = q := by
        simp [_pkt.store]
      simpa [e] using this

theorem icmp_try_inner_arena (T : Target) (mem : Mem) (p : _pkt) (outer icmph : Nat) :
    (icmp_try_inner T mem p outer icmph).2.arena = p.arena ∧
    (icmp_try_inner T mem p outer icmph).2.pkt_dcb_top = p.pkt_dcb_top ∧
    (icmp_try_inner T mem p outer icmph).2.pkt_dcb_end = p.pkt_dcb_end := by
  unfold icmp_try_inner
  simp only []
  split
  · exact ⟨rfl, rfl, rfl⟩
  split
  · exact ⟨rfl, rfl, rfl⟩
  split
  · exact ⟨rfl, rfl, rfl⟩
  · exact ⟨rfl, rfl, rfl⟩

theorem icmp_decode_step (T : Target) (mem : Mem) (p : _pkt) (outer : Nat) (ah : Option Nat) :
    arena_step p (icmp_decode T mem p outer ah) := by
  have key : ∀ r : Option Nat × _pkt, r.2.arena = p.arena →
      r.2.pkt_dcb_top = p.pkt_dcb_top → r.2.pkt_dcb_end = p.pkt_dcb_end →
      arena_step p (match decode_layer r.2 (p_icmp T) with
        | (none, q) => q
        | (some dcb, q) =>
          q.store dcb (fun d =>
            { d with x_iph := r.1, x_ah := ah, x_hdr := some p.pkt_nxthdr, x_inner := r.1 })) := by
    intro r h1 h2 h3
    refine arena_step_of_eq p r.2 _ h1 h2 h3 ?_
    by_cases h : r.2.pkt_dcb_top + (p_icmp T).p_dcb_sz ≤ r.2.pkt_dcb_end
    · rw [decode_layer_room r.2 _ h]
      refine ⟨rfl, by simp, ?_, Or.inr ⟨p_icmp T, ?_, by show "icmp" ≠ "iptunnel"; decide⟩, ?_⟩
      · intro a ha
        simp [_pkt.store, ha]
      · simp [_pkt.store]
      · intro hc
        exfalso
        omega
    · rw [decode_layer_full r.2 _ (by omega)]
      exact ⟨rfl, by simp, fun a _ => rfl, Or.inl rfl, fun _ => rfl⟩
  unfold icmp_decode
  simp only []
  by_cases c1 : p.pkt_nxthdr + sizeof_pkt_icmphdr > p.pkt_end
  · rw [if_pos c1]
    exact arena_step_refl _ _ rfl rfl rfl
  · rw [if_neg c1]
    apply key
    · split
      · exact (icmp_try_inner_arena T mem _ outer p.pkt_nxthdr).1
      · rfl
    · split
      · exact (icmp_try_inner_arena T mem _ outer p.pkt_nxthdr).2.1
      · rfl
    · split
      · exact (icmp_try_inner_arena T mem _ outer p.pkt_nxthdr).2.2
      · rfl

theorem arena_mono_of_step (p q : _pkt) (h : arena_step p q) : arena_mono p q :=
  ⟨h.1, h.2.1, h.2.2.2.2⟩

theorem arena_mono_of_eq (p p' q : _pkt) (ha : p'.arena = p.arena)
    (ht : p'.pkt_dcb_top = p.pkt_dcb_top) (he : p'.pkt_dcb_end = p.pkt_dcb_end)
    (h : arena_mono p' q) : arena_mono p q := by
  obtain ⟨h1, h2, h3⟩ := h
  rw [ha, ht, he] at *
  exact ⟨h1, h2, h3⟩

theorem arena_mono_trans (p q r : _pkt) (h1 : arena_mono p q) (h2 : arena_mono q r) :
    arena_mono p r := by
  obtain ⟨a1, a2, a3⟩ := h1
  obtain ⟨b1, b2, b3⟩ := h2
  refine ⟨by rw [b1, a1], by omega, ?_⟩
  intro h
  rw [b3 (by omega), a3 h]

/-- The allocation of a layer of any protocol, followed by stores into the
block, keeps the limit and does not lower the top; it changes nothing in the
arena when the top is beyond the limit. -/
theorem layer_mono (p : _pkt) (pr : _proto) (g : Nat → _dcb → _dcb) :
    arena_mono p (match decode_layer p pr with
      | (some dcb, q) => q.store dcb (g dcb)
      | (none, q) => q) := by
  by_cases h : p.pkt_dcb_top + pr.p_dcb_sz ≤ p.pkt_dcb_end
  · rw [decode_layer_room p pr h]
    refine ⟨rfl, by simp, ?_⟩
    intro hc
    exfalso
    omega
  · rw [decode_layer_full p pr (by omega)]
    exact ⟨rfl, by simp, fun _ => rfl⟩

/-- A call of a slot other than `tunnel_decode` and `ah_decode`. -/
theorem leaf_call_step (T : Target) (mem : Mem) (f slot : Nat) (p q : _pkt) (iph : Nat)
    (ah : Option Nat) (hs : slot ≠ 3) (hs8 : slot ≠ 8)
    (h : subproto_call T mem f slot p iph ah = .ok q) : arena_step p q := by
  cases f with
  | zero => simp [subproto_call] at h
  | succ f =>
    simp only [subproto_call] at h
    by_cases hlt : slot < 10
    · interval_cases slot <;>
        simp only [subproto, List.getElem?_cons_zero, List.getElem?_cons_succ,
          reduceCtorEq] at h
      · obtain rfl := Except.ok.inj h
        exact arena_step_of_eq p _ _ rfl rfl rfl (raw_decode_step T _ iph ah)
      · obtain rfl := Except.ok.inj h
        exact arena_step_of_eq p _ _ rfl rfl rfl (icmp_decode_step T mem _ iph ah)
      · exact absurd rfl hs
      · obtain rfl := Except.ok.inj h
        exact arena_step_of_eq p _ _ rfl rfl rfl (tcp_decode_step T mem _ iph ah)
      · obtain rfl := Except.ok.inj h
        exact arena_step_of_eq p _ _ rfl rfl rfl (udp_decode_step T _ iph ah)
      · obtain rfl := Except.ok.inj h
        exact arena_step_of_eq p _ _ rfl rfl rfl (esp_decode_step _ iph ah)
      · exact absurd rfl hs8
    · have : subproto[slot]? = none := by
        apply List.getElem?_eq_none
        simp only [subproto, List.length_cons, List.length_nil]
        omega
      simp [this] at h

/-- Every decoder keeps the arena limit and never lowers the top, and once the
top is beyond the limit it leaves the arena as it is. -/
theorem mono_aux (T : Target) (mem : Mem) : ∀ f,
    (∀ p q, ipv4_decode T mem f p = .ok q → arena_mono p q) ∧
    (∀ p iph ah q, tunnel_decode T mem f p iph ah = .ok q → arena_mono p q) ∧
    (∀ slot p iph ah q, subproto_call T mem f slot p iph ah = .ok q → arena_mono p q) ∧
    (∀ p iph bogus q, ah_decode T mem f p iph bogus = .ok q → arena_mono p q) := by
  intro f
  induction f with
  | zero =>
    refine ⟨?_, ?_, ?_, ?_⟩
    · intro p q h; simp [ipv4_decode] at h
    · intro p iph ah q h; simp [tunnel_decode] at h
    · intro slot p iph ah q h; simp [subproto_call] at h
    · intro p iph bogus q h; simp [ah_decode] at h
  | succ f ih =>
    obtain ⟨ih1, ih2, ih3, ih4⟩ := ih
    refine ⟨?_, ?_, ?_, ?_⟩
    · intro p q h
      by_cases hg : gates_pass T mem p
      · rw [ipv4_decode_checked T mem p f hg] at h
        split at h
        · obtain rfl := Except.ok.inj h
          exact arena_mono_of_eq p (ipv4_checked mem p) _ rfl rfl rfl
            (layer_mono (ipv4_checked mem p) (p_fragment T)
              (fun _ d => { d with x_iph := some p.pkt_nxthdr }))
        · cases hs : subproto_call T mem f (pmap (iph_protocol mem p.pkt_nxthdr))
              ((ipv4_checked mem p).ev (.read (p.pkt_nxthdr + 9) 1)) p.pkt_nxthdr none with
          | error e => rw [hs] at h; simp at h
          | ok q1 =>
            rw [hs] at h
            obtain rfl := Except.ok.inj h
            have hm := ih3 _ _ _ _ _ hs
            exact ⟨hm.1, hm.2.1, hm.2.2⟩
      · obtain ⟨q0, hq0, ⟨ha, ht, _, he⟩, _⟩ := ipv4_decode_rejects T mem p f hg
        rw [hq0] at h
        obtain rfl := Except.ok.inj h
        exact ⟨he, by omega, fun _ => ha⟩
    · intro p iph ah q h
      simp only [tunnel_decode] at h
      exact arena_mono_trans _ _ _
        (layer_mono p (p_tunnel T) (fun _ d => { d with x_iph := some iph, x_ah := ah }))
        (ih1 _ _ h)
    · intro slot p iph ah q h
      by_cases h3 : slot = 3
      · subst h3
        simp only [subproto_call, subproto, List.getElem?_cons_zero,
          List.getElem?_cons_succ] at h
        have hm := ih2 _ _ _ _ h
        exact ⟨hm.1, hm.2.1, hm.2.2⟩
      · by_cases h8 : slot = 8
        · subst h8
          simp only [subproto_call, subproto, List.getElem?_cons_zero,
            List.getElem?_cons_succ] at h
          have hm := ih4 _ _ _ _ h
          exact ⟨hm.1, hm.2.1, hm.2.2⟩
        · exact arena_mono_of_step _ _ (leaf_call_step T mem (f + 1) slot p q iph ah h3 h8 h)
    · intro p iph bogus q h
      cases bogus with
      | some b =>
        rw [ah_decode_nested] at h
        obtain rfl := Except.ok.inj h
        exact ⟨rfl, by simp, fun _ => rfl⟩
      | none =>
        simp only [ah_decode, ne_eq, not_true_eq_false, if_false, ev_pkt_nxthdr,
          ev_pkt_end] at h
        split at h
        · obtain rfl := Except.ok.inj h
          exact ⟨rfl, by simp, fun _ => rfl⟩
        split at h
        · obtain rfl := Except.ok.inj h
          exact ⟨rfl, by simp, fun _ => rfl⟩
        split at h
        · obtain rfl := Except.ok.inj h
          exact ⟨rfl, by simp, fun _ => rfl⟩
        · have hm := ih3 _ _ _ _ _ h
          exact ⟨hm.1, hm.2.1, hm.2.2⟩

theorem pmap_eq_3 (x : Nat) (h : pmap x = 3) : x = IP_PROTO_IPIP := by
  unfold pmap at h
  split_ifs at h <;> first | assumption | omega

theorem pmap_eq_8 (x : Nat) (h : pmap x = 8) : x = IP_PROTO_AH := by
  unfold pmap at h
  split_ifs at h <;> first | assumption | omega

/-- The decode of a datagram that opens no further tunnel level changes at most
the block at the arena top, and gives it an owner other than `iptunnel`. -/
theorem payload_step (T : Target) (mem : Mem) (f : Nat) (p q : _pkt)
    (hnt : ¬ opens_tunnel T mem p p.pkt_nxthdr)
    (h : ipv4_decode T mem f p = .ok q) : arena_step p q := by
  cases f with
  | zero => simp [ipv4_decode] at h
  | succ f =>
    by_cases hg : gates_pass T mem p
    · rw [ipv4_decode_checked T mem p f hg] at h
      by_cases hfrag : iph_frag_off T mem p.pkt_nxthdr &&& ipfmask T ≠ 0
      · rw [if_pos hfrag] at h
        obtain rfl := Except.ok.inj h
        exact arena_step_of_eq p (ipv4_checked mem p) _ rfl rfl rfl
          (layer_step (ipv4_checked mem p) (p_fragment T)
            (fun _ d => { d with x_iph := some p.pkt_nxthdr }) (fun _ _ => rfl)
            (by show "ipfrag" ≠ "iptunnel"; decide))
      · rw [if_neg hfrag] at h
        have hnf : ¬ (be16toh T (iph_frag_off T mem p.pkt_nxthdr) &&& IP_MF ≠ 0 ∨
            be16toh T (iph_frag_off T mem p.pkt_nxthdr) &&& IP_OFFMASK ≠ 0) :=
          fun hc => hfrag ((frag_test_iff T mem p.pkt_nxthdr).2 hc)
        have hg' : gates_pass T mem { p with pkt_nxthdr := p.pkt_nxthdr } := hg
        have hno4 : iph_protocol mem p.pkt_nxthdr ≠ IP_PROTO_IPIP :=
          fun hc => hnt ⟨hg', hnf, Or.inl hc⟩
        have hs3 : pmap (iph_protocol mem p.pkt_nxthdr) ≠ 3 := fun hc => hno4 (pmap_eq_3 _ hc)
        cases hs : subproto_call T mem f (pmap (iph_protocol mem p.pkt_nxthdr))
            ((ipv4_checked mem p).ev (.read (p.pkt_nxthdr + 9) 1)) p.pkt_nxthdr none with
        | error e => rw [hs] at h; simp at h
        | ok q1 =>
          rw [hs] at h
          obtain rfl := Except.ok.inj h
          refine arena_step_of_eq p ((ipv4_checked mem p).ev (.read (p.pkt_nxthdr + 9) 1))
            _ rfl rfl rfl ?_
          show arena_step _ q1
          by_cases hs8 : pmap (iph_protocol mem p.pkt_nxthdr) = 8
          · -- through AH
            have h51 := pmap_eq_8 _ hs8
            rw [hs8] at hs
            cases f with
            | zero => simp [subproto_call] at hs
            | succ f =>
              simp only [subproto_call, subproto, List.getElem?_cons_zero,
                List.getElem?_cons_succ] at hs
              cases f with
              | zero => simp [ah_decode] at hs
              | succ f =>
                have e5 : ∀ x : Nat, x <<< 2 = 4 * x := by
                  intro x; rw [Nat.shiftLeft_eq]; omega
                simp only [ah_decode, ne_eq, not_true_eq_false, if_false, ev_pkt_nxthdr,
                  ev_pkt_end, ipv4_checked, e5] at hs
                split at hs
                · obtain rfl := Except.ok.inj hs
                  exact arena_step_refl _ _ rfl rfl rfl
                split at hs
                · obtain rfl := Except.ok.inj hs
                  exact arena_step_refl _ _ rfl rfl rfl
                split at hs
                · obtain rfl := Except.ok.inj hs
                  exact arena_step_refl _ _ rfl rfl rfl
                · rename_i c1 c2 c3
                  have hah4 : ah_protocol mem (p.pkt_nxthdr + 4 * iph_ihl mem p.pkt_nxthdr)
                      ≠ IP_PROTO_IPIP := by
                    intro hc
                    exact hnt ⟨hg', hnf, Or.inr ⟨h51, by omega, by omega, by omega, hc⟩⟩
                  have hs3' : pmap (ah_protocol mem
                      (p.pkt_nxthdr + 4 * iph_ihl mem p.pkt_nxthdr)) ≠ 3 :=
                    fun hc => hah4 (pmap_eq_3 _ hc)
                  by_cases hs8' : pmap (ah_protocol mem
                      (p.pkt_nxthdr + 4 * iph_ihl mem p.pkt_nxthdr)) = 8
                  · rw [hs8'] at hs
                    cases f with
                    | zero => simp [subproto_call] at hs
                    | succ f =>
                      simp only [subproto_call, subproto, List.getElem?_cons_zero,
                        List.getElem?_cons_succ] at hs
                      cases f with
                      | zero => simp [ah_decode] at hs
                      | succ f =>
                        rw [ah_decode_nested] at hs
                        obtain rfl := Except.ok.inj hs
                        exact arena_step_refl _ _ rfl rfl rfl
                  · have hl := leaf_call_step T mem _ _ _ _ _ _ hs3' hs8' hs
                    exact ⟨hl.1, hl.2.1, hl.2.2.1, hl.2.2.2.1, hl.2.2.2.2⟩
          · exact leaf_call_step T mem _ _ _ _ _ _ hs3 hs8 hs
    · obtain ⟨q0, hq0, ⟨ha, ht, _, he⟩, _⟩ := ipv4_decode_rejects T mem p f hg
      rw [hq0] at h
      obtain rfl := Except.ok.inj h
      exact arena_step_refl _ _ ha ht he

theorem tunnel_headers_congr (T : Target) (mem : Mem) (p q : _pkt) (h : q.pkt_end = p.pkt_end) :
    ∀ k c, tunnel_headers T mem q k c ↔ tunnel_headers T mem p k c := by
  intro k
  induction k with
  | zero => intro c; simp only [tunnel_headers]
  | succ k ih =>
    intro c
    simp only [tunnel_headers]
    rw [gates_pass_congr T mem { p with pkt_nxthdr := c } { q with pkt_nxthdr := c } rfl h, ih]

/-- One tunnel level of the run: on a checked, non-fragment IP-in-IP header,
`ipv4_decode` is `ipv4_decode` on the state `tunnel_level`, followed by the
repositioning of the cursor. -/
theorem tunnel_level_run (T : Target) (mem : Mem) (p : _pkt) (f : Nat)
    (hg : gates_pass T mem p)
    (hnf : ¬ (be16toh T (iph_frag_off T mem p.pkt_nxthdr) &&& IP_MF ≠ 0 ∨
      be16toh T (iph_frag_off T mem p.pkt_nxthdr) &&& IP_OFFMASK ≠ 0))
    (hproto : iph_protocol mem p.pkt_nxthdr = IP_PROTO_IPIP) :
    ipv4_decode T mem (f + 3) p =
      match ipv4_decode T mem f (tunnel_level T mem p) with
      | .error e => .error e
      | .ok q => .ok { q with pkt_nxthdr := p.pkt_nxthdr + ip_len T mem p.pkt_nxthdr } := by
  have hfrag : ¬ (iph_frag_off T mem p.pkt_nxthdr &&& ipfmask T ≠ 0) :=
    fun h => hnf ((frag_test_iff T mem p.pkt_nxthdr).1 h)
  have hp3 : pmap IP_PROTO_IPIP = 3 := by decide
  rw [ipv4_decode_checked T mem p (f + 2) hg, if_neg hfrag, hproto, hp3]
  simp only [subproto_call, subproto, List.getElem?_cons_zero, List.getElem?_cons_succ,
    tunnel_decode]
  rfl

/-- The state after one tunnel level. -/
theorem tunnel_level_facts (T : Target) (mem : Mem) (p : _pkt) :
    (tunnel_level T mem p).pkt_nxthdr = p.pkt_nxthdr + 4 * iph_ihl mem p.pkt_nxthdr ∧
    (tunnel_level T mem p).pkt_end = p.pkt_end ∧
    (tunnel_level T mem p).pkt_dcb_top = p.pkt_dcb_top + T.sizeof_ip_dcb ∧
    (tunnel_level T mem p).pkt_dcb_end = p.pkt_dcb_end ∧
    (p.pkt_dcb_top + T.sizeof_ip_dcb ≤ p.pkt_dcb_end →
      (tunnel_alloc T mem p).1 = some p.pkt_dcb_top ∧
      (tunnel_level T mem p).arena p.pkt_dcb_top =
        { p.arena p.pkt_dcb_top with
          dcb_next := p.pkt_dcb_top + T.sizeof_ip_dcb,
          dcb_proto := some (p_tunnel T),
          x_iph := some p.pkt_nxthdr, x_ah := none } ∧
      ∀ a, a ≠ p.pkt_dcb_top → (tunnel_level T mem p).arena a = p.arena a) ∧
    (p.pkt_dcb_end < p.pkt_dcb_top + T.sizeof_ip_dcb →
      (tunnel_alloc T mem p).1 = none ∧ (tunnel_level T mem p).arena = p.arena) := by
  have e5 : ∀ x : Nat, x <<< 2 = 4 * x := by
    intro x; rw [Nat.shiftLeft_eq]; omega
  by_cases hfit : p.pkt_dcb_top + T.sizeof_ip_dcb ≤ p.pkt_dcb_end
  · have hr := decode_layer_room
      (((ipv4_checked mem p).ev (.read (p.pkt_nxthdr + 9) 1)).ev (.call 3)) (p_tunnel T)
      (by simpa [ipv4_checked, p_tunnel] using hfit)
    simp only [tunnel_level, tunnel_alloc, hr]
    refine ⟨by simp [ipv4_checked, e5], by simp [ipv4_checked], by simp [ipv4_checked, p_tunnel],
      by simp [ipv4_checked], ?_, ?_⟩
    · intro _
      refine ⟨by simp [ipv4_checked], by simp [ipv4_checked, _pkt.store, p_tunnel], ?_⟩
      intro a ha
      simp [ipv4_checked, _pkt.store, ha]
    · intro hc
      exfalso
      omega
  · have hr := decode_layer_full
      (((ipv4_checked mem p).ev (.read (p.pkt_nxthdr + 9) 1)).ev (.call 3)) (p_tunnel T)
      (by simpa [ipv4_checked, p_tunnel] using hfit)
    simp only [tunnel_level, tunnel_alloc, hr]
    refine ⟨by simp [ipv4_checked, e5], by simp [ipv4_checked], by simp [ipv4_checked, p_tunnel],
      by simp [ipv4_checked], ?_, ?_⟩
    · intro hc
      exfalso
      omega
    · intro _
      exact ⟨trivial, by simp [ipv4_checked]⟩

/-- The state after `k` tunnel levels: the cursor is at the `k`-th nested
header, the top has moved up by `k` blocks, and block `i` is recorded exactly
when it fits below the limit. -/
theorem tunnel_levels_facts (T : Target) (mem : Mem) (hsz : 0 < T.sizeof_ip_dcb) :
    ∀ k (p : _pkt),
      (tunnel_levels T mem k p).pkt_nxthdr = nth_hdr mem k p.pkt_nxthdr ∧
      (tunnel_levels T mem k p).pkt_end = p.pkt_end ∧
      (tunnel_levels T mem k p).pkt_dcb_top = p.pkt_dcb_top + k * T.sizeof_ip_dcb ∧
      (tunnel_levels T mem k p).pkt_dcb_end = p.pkt_dcb_end ∧
      (∀ i, i < k → p.pkt_dcb_top + (i + 1) * T.sizeof_ip_dcb ≤ p.pkt_dcb_end →
        (tunnel_levels T mem k p).arena (p.pkt_dcb_top + i * T.sizeof_ip_dcb) =
          { p.arena (p.pkt_dcb_top + i * T.sizeof_ip_dcb) with
            dcb_next := p.pkt_dcb_top + (i + 1) * T.sizeof_ip_dcb,
            dcb_proto := some (p_tunnel T),
            x_iph := some (nth_hdr mem i p.pkt_nxthdr), x_ah := none }) ∧
      (∀ a, (∀ i, i < k → p.pkt_dcb_top + (i + 1) * T.sizeof_ip_dcb ≤ p.pkt_dcb_end →
          a ≠ p.pkt_dcb_top + i * T.sizeof_ip_dcb) →
        (tunnel_levels T mem k p).arena a = p.arena a) := by
  intro k
  induction k with
  | zero =>
    intro p
    refine ⟨rfl, rfl, by simp [tunnel_levels], rfl, ?_, ?_⟩
    · intro i hi; omega
    · intro a _; rfl
  | succ k ih =>
    intro p
    obtain ⟨n3, en3, t3, de3, hfitc, hfullc⟩ := tunnel_level_facts T mem p
    obtain ⟨qn, qen, qt, qe, qb, qf⟩ := ih (tunnel_level T mem p)
    simp only [tunnel_levels]
    generalize tunnel_level T mem p = p3 at *
    generalize tunnel_levels T mem k p3 = q at *
    by_cases hfit : p.pkt_dcb_top + T.sizeof_ip_dcb ≤ p.pkt_dcb_end
    · obtain ⟨_, a3, f3⟩ := hfitc hfit
      refine ⟨?_, ?_, ?_, ?_, ?_, ?_⟩
      · rw [qn, n3]; rfl
      · rw [qen, en3]
      · rw [qt, t3, Nat.succ_mul]; omega
      · rw [qe, de3]
      · intro i hi hfi
        cases i with
        | zero =>
          have : q.arena p.pkt_dcb_top = p3.arena p.pkt_dcb_top := by
            apply qf
            intro j _ _
            rw [t3]
            have := Nat.zero_le (j * T.sizeof_ip_dcb)
            omega
          simp only [Nat.zero_mul, Nat.add_zero, Nat.zero_add, Nat.one_mul, nth_hdr]
          rw [this, a3]
        | succ j =>
          have e1 : p.pkt_dcb_top + (j + 1) * T.sizeof_ip_dcb =
              p3.pkt_dcb_top + j * T.sizeof_ip_dcb := by
            rw [t3, Nat.succ_mul]; omega
          have e2 : p.pkt_dcb_top + (j + 1 + 1) * T.sizeof_ip_dcb =
              p3.pkt_dcb_top + (j + 1) * T.sizeof_ip_dcb := by
            rw [t3, Nat.succ_mul (j + 1)]; omega
          have hb := qb j (by omega) (by rw [← e2, de3]; exact hfi)
          have hne : p3.pkt_dcb_top + j * T.sizeof_ip_dcb ≠ p.pkt_dcb_top := by
            rw [t3]
            have := Nat.zero_le (j * T.sizeof_ip_dcb)
            omega
          rw [e1, e2, hb, f3 _ hne, n3]
          rfl
      · intro a ha
        have ha0 : a ≠ p.pkt_dcb_top := by
          have := ha 0 (by omega) (by simpa using hfit)
          simpa using this
        rw [qf a, f3 a ha0]
        intro j hj hfj
        have e1 : p.pkt_dcb_top + (j + 1) * T.sizeof_ip_dcb =
            p3.pkt_dcb_top + j * T.sizeof_ip_dcb := by
          rw [t3, Nat.succ_mul]; omega
        have e2 : p.pkt_dcb_top + (j + 1 + 1) * T.sizeof_ip_dcb =
            p3.pkt_dcb_top + (j + 1) * T.sizeof_ip_dcb := by
          rw [t3, Nat.succ_mul (j + 1)]; omega
        rw [← e1]
        exact ha (j + 1) (by omega) (by rw [e2, ← de3]; exact hfj)
    · obtain ⟨_, f3⟩ := hfullc (by omega)
      have nofit : ∀ i, ¬ (p.pkt_dcb_top + (i + 1) * T.sizeof_ip_dcb ≤ p.pkt_dcb_end) := by
        intro i
        have : T.sizeof_ip_dcb ≤ (i + 1) * T.sizeof_ip_dcb := Nat.le_mul_of_pos_left _ (by omega)
        omega
      refine ⟨?_, ?_, ?_, ?_, ?_, ?_⟩
      · rw [qn, n3]; rfl
      · rw [qen, en3]
      · rw [qt, t3, Nat.succ_mul]; omega
      · rw [qe, de3]
      · intro i _ hfi
        exact absurd hfi (nofit i)
      · intro a _
        rw [qf a, f3]
        intro j _ hfj
        exfalso
        apply nofit (j + 1)
        have e2 : p.pkt_dcb_top + (j + 1 + 1) * T.sizeof_ip_dcb =
            p3.pkt_dcb_top + (j + 1) * T.sizeof_ip_dcb := by
          rw [t3, Nat.succ_mul (j + 1)]; omega
        rw [e2, ← de3]; exact hfj

/-- The `i`-th allocation of the run. -/
theorem tunnel_alloc_at (T : Target) (mem : Mem) (hsz : 0 < T.sizeof_ip_dcb) (p : _pkt)
    (i : Nat) :
    (tunnel_alloc T mem (tunnel_levels T mem i p)).1 =
      if p.pkt_dcb_top + (i + 1) * T.sizeof_ip_dcb ≤ p.pkt_dcb_end
      then some (p.pkt_dcb_top + i * T.sizeof_ip_dcb) else none := by
  obtain ⟨_, _, t, e, _, _⟩ := tunnel_levels_facts T mem hsz i p
  obtain ⟨_, _, _, _, hfitc, hfullc⟩ := tunnel_level_facts T mem (tunnel_levels T mem i p)
  rw [t, e] at hfitc hfullc
  rw [Nat.succ_mul]
  split
  · rename_i h
    exact (hfitc (by omega)).1
  · rename_i h
    exact (hfullc (by omega)).1

/-- The nested headers lie inside the buffer, 20 bytes or more each. -/
theorem tunnel_headers_bound (T : Target) (mem : Mem) (p : _pkt) :
    ∀ k c, tunnel_headers T mem p k c →
      c + 20 * k ≤ nth_hdr mem k c ∧ (0 < k → nth_hdr mem k c ≤ p.pkt_end) := by
  intro k
  induction k with
  | zero => intro c _; exact ⟨by simp [nth_hdr], fun h => absurd h (by omega)⟩
  | succ k ih =>
    intro c h
    obtain ⟨⟨_, h2, _, h4, _⟩, _, _, hrest⟩ := h
    have h2' : 5 ≤ iph_ihl mem c := h2
    have h4' : c + 4 * iph_ihl mem c ≤ p.pkt_end := h4
    obtain ⟨b1, b2⟩ := ih _ hrest
    simp only [nth_hdr]
    refine ⟨by omega, fun _ => ?_⟩
    cases k with
    | zero => simpa [nth_hdr] using h4'
    | succ k => exact b2 (by omega)

/-- The run through `k` tunnel levels: the decode of `p` is the decode of the
state after `k` levels, up to the cursor. -/
theorem tunnel_levels_run (T : Target) (mem : Mem) :
    ∀ k (p : _pkt) f q', tunnel_headers T mem p k p.pkt_nxthdr →
      ipv4_decode T mem f (tunnel_levels T mem k p) = .ok q' →
      ∃ q, ipv4_decode T mem (f + 3 * k) p = .ok q ∧ q.arena = q'.arena ∧
        q.pkt_dcb_top = q'.pkt_dcb_top ∧ q.pkt_dcb_end = q'.pkt_dcb_end := by
  intro k
  induction k with
  | zero =>
    intro p f q' _ h
    exact ⟨q', h, rfl, rfl, rfl⟩
  | succ k ih =>
    intro p f q' hch h
    obtain ⟨hg, hnf, hproto, hrest⟩ := hch
    obtain ⟨n3, en3, _, _, _, _⟩ := tunnel_level_facts T mem p
    have hch3 : tunnel_headers T mem (tunnel_level T mem p) k
        (tunnel_level T mem p).pkt_nxthdr := by
      rw [tunnel_headers_congr T mem p _ en3, n3]; exact hrest
    obtain ⟨q1, hq1, a1, t1, e1⟩ := ih (tunnel_level T mem p) f q' hch3 h
    have e : f + 3 * (k + 1) = (f + 3 * k) + 3 := by omega
    rw [e, tunnel_level_run T mem p (f + 3 * k) hg hnf hproto, hq1]
    exact ⟨_, rfl, a1, t1, e1⟩

/-- Whether a datagram opens a tunnel level depends on the packet only through
its end. -/
theorem opens_tunnel_congr (T : Target) (mem : Mem) (p q : _pkt) (c : Nat)
    (h : q.pkt_end = p.pkt_end) : opens_tunnel T mem q c ↔ opens_tunnel T mem p c := by
  simp only [opens_tunnel]
  rw [gates_pass_congr T mem { p with pkt_nxthdr := c } { q with pkt_nxthdr := c } rfl h, h]

/-- A prefix of a run of tunnel headers is a run of tunnel headers. -/
theorem tunnel_headers_le (T : Target) (mem : Mem) (p : _pkt) :
    ∀ k i c, i ≤ k → tunnel_headers T mem p k c → tunnel_headers T mem p i c := by
  intro k
  induction k with
  | zero =>
    intro i c hi h
    have : i = 0 := by omega
    subst this
    exact h
  | succ k ih =>
    intro i c hi h
    cases i with
    | zero => exact trivial
    | succ i =>
      obtain ⟨h1, h2, h3, h4⟩ := h
      exact ⟨h1, h2, h3, ih i _ (by omega) h4⟩

/-- With the budget of the whole packet, the decoder reaches the state after
`k` tunnel levels, returns from there, and the run from `p` ends with the same
arena. -/
theorem tunnel_levels_reach (T : Target) (mem : Mem) (hsz : 0 < T.sizeof_ip_dcb)
    (p : _pkt) (k fuel : Nat) (hch : tunnel_headers T mem p k p.pkt_nxthdr)
    (hfuel : fuel_for p ≤ fuel) :
    ∃ q', ipv4_decode T mem (fuel - 3 * k) (tunnel_levels T mem k p) = .ok q' ∧
      ∃ q, ipv4_decode T mem fuel p = .ok q ∧ q.arena = q'.arena ∧
        q.pkt_dcb_top = q'.pkt_dcb_top ∧ q.pkt_dcb_end = q'.pkt_dcb_end := by
  obtain ⟨rn, ren, _, _, _, _⟩ := tunnel_levels_facts T mem hsz k p
  obtain ⟨b1, b2⟩ := tunnel_headers_bound T mem p k p.pkt_nxthdr hch
  have h3k : 3 * k ≤ fuel ∧ fuel_for (tunnel_levels T mem k p) ≤ fuel - 3 * k := by
    simp only [fuel_for, rn, ren] at hfuel ⊢
    by_cases hk : k = 0
    · subst hk
      simp only [nth_hdr] at *
      omega
    · have := b2 (by omega)
      omega
  obtain ⟨q', hq'⟩ := ipv4_decode_returns T mem (tunnel_levels T mem k p) (fuel - 3 * k) h3k.2
  obtain ⟨q, hq, qa, qt, qe⟩ := tunnel_levels_run T mem k p (fuel - 3 * k) q' hch hq'
  have efuel : fuel - 3 * k + 3 * k = fuel := by omega
  rw [efuel] at hq
  exact ⟨q', hq', q, hq, qa, qt, qe⟩

/-! ### Claims -/

/-- C1: on a table window whose entries are sorted strictly ascending by id,
`_ns_entry_search` returns the decoder of the entry that carries the id looked
up, and returns `NULL` when no entry of the window carries it. -/
theorem C1_ns_entry_search (tbl : Nat → _ns_entry) (p n id : Nat)
    (hs : ns_sorted tbl p n) :
    (∀ k, k < n → (tbl (p + k)).nse_id = id →
        _ns_entry_search tbl p n id = some (tbl (p + k)).nse_decoder) ∧
    ((∀ k, k < n → (tbl (p + k)).nse_id ≠ id) → _ns_entry_search tbl p n id = none) :=
  ⟨fun k hk hid => ns_search_found tbl id n p hs k hk hid,
   fun hab => ns_search_absent tbl id n p hab⟩

theorem tbl0_sorted : ns_sorted tbl0 0 3 := by
  intro i j hij hj
  have hi : i < 3 := by omega
  interval_cases j <;> interval_cases i <;> first | omega | decide

/-- C1 at the three-entry table `tbl0`: id 8 is found, id 9 is absent. -/
theorem C1_witness :
    ns_sorted tbl0 0 3 ∧ _ns_entry_search tbl0 0 3 8 = some 200 ∧
      _ns_entry_search tbl0 0 3 9 = none :=
  ⟨tbl0_sorted,
   (C1_ns_entry_search tbl0 0 3 8 tbl0_sorted).1 1 (by decide) (by decide),
   (C1_ns_entry_search tbl0 0 3 9 tbl0_sorted).2 (by
      intro k hk; interval_cases k <;> decide)⟩

set_option maxRecDepth 8000 in
/-- C2: on the 48-byte datagram `pktA` the decoder loads packet memory beyond
the buffer end: `_ip_csum`, called by `icmp_try_inner` on the embedded header
that declares IHL 15, loads the words at offsets 48 to 87. -/
theorem C2_icmp_inner_reads_past_end :
    (pk0 48).pkt_nxthdr = (pk0 48).pkt_base ∧ pktA.length = (pk0 48).pkt_end ∧
    (ipv4_decode T0 (memOf pktA) 11 (pk0 48)).toOption.map
        (fun q => (q.pkt_end, reads_in_bounds q, q.log.contains (.read 48 2),
          q.log.contains (.read 86 2))) =
      some (48, false, true, true) := by
  decide

/-- C3: entered with fewer bytes between the cursor and the buffer end than
its fixed header (20 for IPv4 and TCP, 8 for ICMP, UDP and ESP,
`sizeof(struct pkt_ahhdr)` for AH), each decoder returns with the DCB arena
exactly as it was: no block is recorded. -/
theorem C3_short_header_no_dcb (T : Target) (mem : Mem) (p : _pkt) (iph : Nat)
    (ah : Option Nat) (fuel : Nat) :
    (p.pkt_end < p.pkt_nxthdr + 20 →
      ∃ q, ipv4_decode T mem (fuel + 1) p = .ok q ∧ arena_untouched p q) ∧
    (p.pkt_end < p.pkt_nxthdr + 8 → arena_untouched p (icmp_decode T mem p iph ah)) ∧
    (p.pkt_end < p.pkt_nxthdr + 20 → arena_untouched p (tcp_decode T mem p iph ah)) ∧
    (p.pkt_end < p.pkt_nxthdr + 8 → arena_untouched p (udp_decode T p iph ah)) ∧
    (p.pkt_end < p.pkt_nxthdr + 8 → arena_untouched p (esp_decode p iph ah)) ∧
    (p.pkt_end < p.pkt_nxthdr + T.sizeof_pkt_ahhdr →
      ∃ q, ah_decode T mem (fuel + 1) p iph ah = .ok q ∧ arena_untouched p q) := by
  refine ⟨?_, ?_, ?_, ?_, ?_, ?_⟩
  · intro h
    refine ⟨p, ?_, rfl, rfl, rfl, rfl⟩
    have h' : p.pkt_nxthdr + sizeof_pkt_iphdr > p.pkt_end := by
      simp only [sizeof_pkt_iphdr]; omega
    simp only [ipv4_decode, h', if_true]
  · intro h
    have h' : p.pkt_nxthdr + sizeof_pkt_icmphdr > p.pkt_end := by
      simp only [sizeof_pkt_icmphdr]; omega
    simp only [icmp_decode, h', if_true]
    exact ⟨rfl, rfl, rfl, rfl⟩
  · intro h
    have h' : p.pkt_nxthdr + sizeof_pkt_tcphdr > p.pkt_end := by
      simp only [sizeof_pkt_tcphdr]; omega
    simp only [tcp_decode, h', if_true]
    exact ⟨rfl, rfl, rfl, rfl⟩
  · intro h
    have h' : p.pkt_nxthdr + sizeof_pkt_udphdr > p.pkt_end := by
      simp only [sizeof_pkt_udphdr]; omega
    simp only [udp_decode, h', if_true]
    exact ⟨rfl, rfl, rfl, rfl⟩
  · intro h
    have h' : p.pkt_nxthdr + sizeof_pkt_esphdr > p.pkt_end := by
      simp only [sizeof_pkt_esphdr]; omega
    simp only [esp_decode, h', if_true]
    exact ⟨rfl, rfl, rfl, rfl⟩
  · intro h
    have h' : p.pkt_nxthdr + T.sizeof_pkt_ahhdr > p.pkt_end := by omega
    cases ah with
    | some a =>
      exact ⟨p.ev (.warn .ah_nesting), by simp [ah_decode], rfl, rfl, rfl, rfl⟩
    | none =>
      refine ⟨{ p with pkt_nxthdr := p.pkt_nxthdr + T.sizeof_pkt_ahhdr }, ?_, rfl, rfl, rfl, rfl⟩
      simp [ah_decode, h']

/-- C3 at a buffer of five bytes. -/
theorem C3_witness :
    (pk0 5).pkt_end < (pk0 5).pkt_nxthdr + 20 ∧ (pk0 5).pkt_end < (pk0 5).pkt_nxthdr + 8 ∧
    (pk0 5).pkt_end < (pk0 5).pkt_nxthdr + T0.sizeof_pkt_ahhdr ∧
    (∃ q, ipv4_decode T0 (memOf pktA) 1 (pk0 5) = .ok q ∧ arena_untouched (pk0 5) q) ∧
    arena_untouched (pk0 5) (icmp_decode T0 (memOf pktA) (pk0 5) 0 none) ∧
    arena_untouched (pk0 5) (tcp_decode T0 (memOf pktA) (pk0 5) 0 none) ∧
    arena_untouched (pk0 5) (udp_decode T0 (pk0 5) 0 none) ∧
    arena_untouched (pk0 5) (esp_decode (pk0 5) 0 none) ∧
    (∃ q, ah_decode T0 (memOf pktA) 1 (pk0 5) 0 none = .ok q ∧ arena_untouched (pk0 5) q) :=
  ⟨by decide, by decide, by decide,
   (C3_short_header_no_dcb T0 (memOf pktA) (pk0 5) 0 none 0).1 (by decide),
   (C3_short_header_no_dcb T0 (memOf pktA) (pk0 5) 0 none 0).2.1 (by decide),
   (C3_short_header_no_dcb T0 (memOf pktA) (pk0 5) 0 none 0).2.2.1 (by decide),
   (C3_short_header_no_dcb T0 (memOf pktA) (pk0 5) 0 none 0).2.2.2.1 (by decide),
   (C3_short_header_no_dcb T0 (memOf pktA) (pk0 5) 0 none 0).2.2.2.2.1 (by decide),
   (C3_short_header_no_dcb T0 (memOf pktA) (pk0 5) 0 none 0).2.2.2.2.2 (by decide)⟩

/-- C4: if the fixed header does not fit, or `ihl < 5`, or `version != 4`, or
the header with its options does not fit, or the checksum is nonzero, then
`ipv4_decode` returns with the DCB arena exactly as it was and without
calling a sub-decoder. -/
theorem C4_ipv4_gates (T : Target) (mem : Mem) (p : _pkt) (fuel : Nat)
    (h : p.pkt_end < p.pkt_nxthdr + 20 ∨ iph_ihl mem p.pkt_nxthdr < 5 ∨
      iph_version mem p.pkt_nxthdr ≠ 4 ∨
      p.pkt_end < p.pkt_nxthdr + 4 * iph_ihl mem p.pkt_nxthdr ∨
      _ip_csum T mem p.pkt_nxthdr ≠ 0) :
    ∃ q, ipv4_decode T mem (fuel + 1) p = .ok q ∧ arena_untouched p q ∧
      calls q.log = calls p.log := by
  apply ipv4_decode_rejects
  rintro ⟨h1, h2, h3, h4, h5⟩
  rcases h with h | h | h | h | h
  · omega
  · omega
  · exact h h3
  · omega
  · exact h h5

/-- C4 at a datagram whose version nibble is 6. -/
theorem C4_witness :
    iph_version (memOf (0x65 :: pktA.tail)) (pk0 48).pkt_nxthdr ≠ 4 ∧
    ∃ q, ipv4_decode T0 (memOf (0x65 :: pktA.tail)) 1 (pk0 48) = .ok q ∧
      arena_untouched (pk0 48) q ∧ calls q.log = calls (pk0 48).log :=
  ⟨by decide, C4_ipv4_gates T0 (memOf (0x65 :: pktA.tail)) (pk0 48) 0
    (Or.inr (Or.inr (Or.inl (by decide))))⟩

/-- C5: if the checksum field of a header with `ihl >= 5` holds what
`_ip_csum` returns on the same header with that field cleared, then `_ip_csum`
of the header is zero. -/
theorem C5_checksum_round_trip (T : Target) (mem : Mem) (iph : Nat)
    (hihl : 5 ≤ iph_ihl mem iph)
    (hc : iph_csum T mem iph = _ip_csum T (csum_cleared mem iph) iph) :
    _ip_csum T mem iph = 0 := by
  have hl := iph_ihl_lt mem iph
  have hi : iph_ihl (csum_cleared mem iph) iph = iph_ihl mem iph := by
    have e1 : ¬ (iph = iph + 10 ∨ iph = iph + 11) := by omega
    simp only [iph_ihl, rd8_csum_cleared, e1, if_false]
  have hw : ∀ j, j ≠ 5 → hdr_word T mem iph j = hdr_word T (csum_cleared mem iph) iph j := by
    intro j hj
    have e1 : ¬ (iph + 2 * j = iph + 10 ∨ iph + 2 * j = iph + 11) := by omega
    have e2 : ¬ (iph + 2 * j + 1 = iph + 10 ∨ iph + 2 * j + 1 = iph + 11) := by omega
    simp only [hdr_word, rd16, rd8_csum_cleared, e1, e2, if_false]
  have h5 : hdr_word T (csum_cleared mem iph) iph 5 = 0 := by
    simp [hdr_word, rd16, rd8_csum_cleared]
  have h5' : hdr_word T mem iph 5 = iph_csum T mem iph := rfl
  have hu := wsum_update (hdr_word T (csum_cleared mem iph) iph) (hdr_word T mem iph) 5 hw
    (2 * iph_ihl mem iph) 0
  rw [if_pos (by omega), if_pos (by omega), h5, h5', hc, _ip_csum_eq, hi] at hu
  rw [_ip_csum_zero_iff]
  generalize wsum (hdr_word T mem iph) (2 * iph_ihl mem iph) 0 = S at hu ⊢
  generalize wsum (hdr_word T (csum_cleared mem iph) iph) (2 * iph_ihl mem iph) 0 = S0 at hu
  split at hu <;> omega

/-- C5 at the header of `pktA`. -/
theorem C5_witness :
    5 ≤ iph_ihl (memOf pktA) 0 ∧
    iph_csum T0 (memOf pktA) 0 = _ip_csum T0 (csum_cleared (memOf pktA) 0) 0 ∧
    _ip_csum T0 (memOf pktA) 0 = 0 :=
  ⟨by decide, by decide, C5_checksum_round_trip T0 (memOf pktA) 0 (by decide) (by decide)⟩

/-- C6: if `_ip_csum` of a header is zero, replacing any one byte of its
`4 * ihl` bytes by a different value that keeps `ihl` makes `_ip_csum`
nonzero. -/
theorem C6_single_byte_corruption (T : Target) (mem mem' : Mem) (iph a : Nat)
    (hz : _ip_csum T mem iph = 0)
    (ha : iph ≤ a ∧ a < iph + 4 * iph_ihl mem iph)
    (hdiff : rd8 mem' a ≠ rd8 mem a)
    (hsame : ∀ b, b ≠ a → rd8 mem' b = rd8 mem b)
    (hihl : iph_ihl mem' iph = iph_ihl mem iph) :
    _ip_csum T mem' iph ≠ 0 := by
  have hl := iph_ihl_lt mem iph
  obtain ⟨k, hk⟩ : ∃ k, a = iph + 2 * k ∨ a = iph + 2 * k + 1 :=
    ⟨(a - iph) / 2, by omega⟩
  have hw : ∀ j, j ≠ k → hdr_word T mem' iph j = hdr_word T mem iph j := by
    intro j hj
    unfold hdr_word rd16
    rw [hsame (iph + 2 * j) (by omega), hsame (iph + 2 * j + 1) (by omega)]
  have hu := wsum_update (hdr_word T mem iph) (hdr_word T mem' iph) k hw
    (2 * iph_ihl mem iph) 0
  rw [if_pos (by omega), if_pos (by omega)] at hu
  rw [_ip_csum_zero_iff] at hz
  rw [Ne, _ip_csum_zero_iff, hihl]
  have b0 := rd8_lt mem (iph + 2 * k)
  have b1 := rd8_lt mem (iph + 2 * k + 1)
  have b0' := rd8_lt mem' (iph + 2 * k)
  have b1' := rd8_lt mem' (iph + 2 * k + 1)
  have hwk : hdr_word T mem iph k ≠ hdr_word T mem' iph k ∧
      hdr_word T mem iph k + 65535 ≠ hdr_word T mem' iph k ∧
      hdr_word T mem iph k ≠ hdr_word T mem' iph k + 65535 ∧
      hdr_word T mem iph k < 65536 ∧ hdr_word T mem' iph k < 65536 := by
    unfold hdr_word rd16
    rcases hk with hk | hk
    · have e1 := hsame (iph + 2 * k + 1) (by omega)
      rw [hk] at hdiff
      split <;> omega
    · have e1 := hsame (iph + 2 * k) (by omega)
      rw [hk] at hdiff
      split <;> omega
  generalize wsum (hdr_word T mem iph) (2 * iph_ihl mem iph) 0 = S at hu hz ⊢
  generalize wsum (hdr_word T mem' iph) (2 * iph_ihl mem iph) 0 = S' at hu ⊢
  have hS := wsum_le (hdr_word T mem iph) (fun i => rd16_lt T mem _) (2 * iph_ihl mem iph) 0
  omega

/-- C6 at the header of `pktA`, with its TTL byte changed from 64 to 63. -/
theorem C6_witness :
    _ip_csum T0 (memOf pktA) 0 = 0 ∧ rd8 (poke (memOf pktA) 8 63) 8 ≠ rd8 (memOf pktA) 8 ∧
    _ip_csum T0 (poke (memOf pktA) 8 63) 0 ≠ 0 :=
  ⟨by decide, by decide,
   C6_single_byte_corruption T0 (memOf pktA) (poke (memOf pktA) 8 63) 0 8 (by decide)
    (by decide) (by decide) (fun b hb => by simp [rd8, poke, hb]) (by decide)⟩

/-- C7: `_decode_layer` reports no room exactly when `top + p_dcb_sz` exceeds
the limit; otherwise it returns the block at the old top, the new top is the
old top plus the size, the block is stamped with its protocol and its `next`
field is the new top; no other block of the arena is written. -/
theorem C7_decode_layer (pkt : _pkt) (p : _proto) :
    ((_decode_layer pkt p).1 = none ↔ pkt.pkt_dcb_top + p.p_dcb_sz > pkt.pkt_dcb_end) ∧
    (¬ pkt.pkt_dcb_top + p.p_dcb_sz > pkt.pkt_dcb_end →
      (_decode_layer pkt p).1 = some pkt.pkt_dcb_top ∧
      (_decode_layer pkt p).2.pkt_dcb_top = pkt.pkt_dcb_top + p.p_dcb_sz ∧
      ((_decode_layer pkt p).2.arena pkt.pkt_dcb_top).dcb_proto = some p ∧
      ((_decode_layer pkt p).2.arena pkt.pkt_dcb_top).dcb_next
        = (_decode_layer pkt p).2.pkt_dcb_top ∧
      (∀ a, a ≠ pkt.pkt_dcb_top → (_decode_layer pkt p).2.arena a = pkt.arena a)) := by
  by_cases h : pkt.pkt_dcb_top + p.p_dcb_sz > pkt.pkt_dcb_end
  · simp [_decode_layer, _decode_dcb_alloc, h]
  · simp [_decode_layer, _decode_dcb_alloc, h, _pkt.store]
    intro a ha
    simp [ha]

/-- C7 at an empty arena and the `tcp` protocol. -/
theorem C7_witness :
    ¬ (pk0 0).pkt_dcb_top + (p_tcp T0).p_dcb_sz > (pk0 0).pkt_dcb_end ∧
    (_decode_layer (pk0 0) (p_tcp T0)).1 = some 1000 ∧
    (_decode_layer (pk0 0) (p_tcp T0)).2.pkt_dcb_top = 1000 + 40 :=
  ⟨by decide,
   ((C7_decode_layer (pk0 0) (p_tcp T0)).2 (by decide)).1,
   ((C7_decode_layer (pk0 0) (p_tcp T0)).2 (by decide)).2.1⟩

/-- C8: with 10 bytes free, an allocation of 24 bytes reports no room and
leaves the top 14 bytes beyond the limit. -/
theorem C8_failed_alloc_moves_top :
    pkFull.pkt_dcb ≤ pkFull.pkt_dcb_top ∧ pkFull.pkt_dcb_top ≤ pkFull.pkt_dcb_end ∧
    (_decode_dcb_alloc pkFull 24).1 = none ∧
    (_decode_dcb_alloc pkFull 24).2.pkt_dcb_top = 1414 ∧
    ¬ (_decode_dcb_alloc pkFull 24).2.pkt_dcb_top ≤ (_decode_dcb_alloc pkFull 24).2.pkt_dcb_end := by
  decide

/-- C9: for a header that passes the checks and has the more-fragments bit or
a nonzero fragment offset, with room for one `ipfrag` DCB, `ipv4_decode`
records exactly one block, owned by `ipfrag` and referring to the IP header,
writes no other block, calls no sub-decoder, and leaves the cursor at the
header start plus the declared total length. -/
theorem C9_fragment_short_circuit (T : Target) (mem : Mem) (p : _pkt) (fuel : Nat)
    (hg : gates_pass T mem p)
    (hf : be16toh T (iph_frag_off T mem p.pkt_nxthdr) &&& IP_MF ≠ 0 ∨
      be16toh T (iph_frag_off T mem p.pkt_nxthdr) &&& IP_OFFMASK ≠ 0)
    (hroom : p.pkt_dcb_top + T.sizeof_ipfrag_dcb ≤ p.pkt_dcb_end) :
    ∃ q, ipv4_decode T mem (fuel + 1) p = .ok q ∧
      q.pkt_dcb_top = p.pkt_dcb_top + T.sizeof_ipfrag_dcb ∧
      q.arena p.pkt_dcb_top =
        { p.arena p.pkt_dcb_top with
          dcb_next := p.pkt_dcb_top + T.sizeof_ipfrag_dcb,
          dcb_proto := some (p_fragment T),
          x_iph := some p.pkt_nxthdr } ∧
      (p_fragment T).p_label = "ipfrag" ∧
      (∀ a, a ≠ p.pkt_dcb_top → q.arena a = p.arena a) ∧
      calls q.log = calls p.log ∧
      q.pkt_nxthdr = p.pkt_nxthdr + ip_len T mem p.pkt_nxthdr := by
  have hfrag := (frag_test_iff T mem p.pkt_nxthdr).2 hf
  have hr : ¬ (p.pkt_dcb_top + T.sizeof_ipfrag_dcb > p.pkt_dcb_end) := by omega
  rw [ipv4_decode_checked T mem p fuel hg, if_pos hfrag]
  refine ⟨_, rfl, ?_⟩
  simp [decode_layer, _decode_layer, _decode_dcb_alloc, ipv4_checked, p_fragment, hr,
    _pkt.store]
  intro a ha
  simp [ha]

/-- C9 at the fragment `pktF`. -/
theorem C9_witness :
    gates_pass T0 (memOf pktF) (pk0 48) ∧
    be16toh T0 (iph_frag_off T0 (memOf pktF) 0) &&& IP_MF ≠ 0 ∧
    ∃ q, ipv4_decode T0 (memOf pktF) 1 (pk0 48) = .ok q ∧
      q.pkt_dcb_top = 1000 + 24 ∧ (q.arena 1000).dcb_proto = some (p_fragment T0) ∧
      calls q.log = [] ∧ q.pkt_nxthdr = 48 := by
  obtain ⟨q, h1, h2, h3, h4, h5, h6, h7⟩ :=
    C9_fragment_short_circuit T0 (memOf pktF) (pk0 48) 0 (by decide) (Or.inl (by decide))
      (by decide)
  refine ⟨by decide, by decide, q, h1, h2, ?_, h6, ?_⟩
  · show (q.arena (pk0 48).pkt_dcb_top).dcb_proto = _
    rw [h3]
  · rw [h7]; decide

/-- C10: for a header that passes the checks and is not a fragment,
`ipv4_decode` returns, whatever the sub-decoder does, with the cursor at the
header start plus the declared total length (`tot_len`, big-endian). -/
theorem C10_cursor_repositioned (T : Target) (mem : Mem) (p : _pkt) (fuel : Nat)
    (hg : gates_pass T mem p)
    (hnf : ¬ (be16toh T (iph_frag_off T mem p.pkt_nxthdr) &&& IP_MF ≠ 0 ∨
      be16toh T (iph_frag_off T mem p.pkt_nxthdr) &&& IP_OFFMASK ≠ 0))
    (hfuel : fuel_for p ≤ fuel) :
    ∃ q, ipv4_decode T mem fuel p = .ok q ∧
      q.pkt_nxthdr = p.pkt_nxthdr + be16toh T (iph_tot_len T mem p.pkt_nxthdr) := by
  have hfrag : ¬ (iph_frag_off T mem p.pkt_nxthdr &&& ipfmask T ≠ 0) :=
    fun h => hnf ((frag_test_iff T mem p.pkt_nxthdr).1 h)
  obtain ⟨f, rfl⟩ : ∃ f, fuel = f + 1 := ⟨fuel - 1, by simp only [fuel_for] at hfuel; omega⟩
  rw [ipv4_decode_checked T mem p f hg, if_neg hfrag]
  have hfu : fuel_for ((ipv4_checked mem p).ev (.read (p.pkt_nxthdr + 9) 1)) + 4 ≤ f := by
    obtain ⟨h1, h2, h3, h4, h5⟩ := hg
    simp only [fuel_for, ev_pkt_end, ev_pkt_nxthdr, ipv4_checked, Nat.shiftLeft_eq] at hfuel ⊢
    omega
  obtain ⟨q, hq⟩ := (returns_aux T mem f).2.2.1 (iph_protocol mem p.pkt_nxthdr) _ p.pkt_nxthdr
    none (by omega) (fun _ => hfu)
  rw [hq]
  exact ⟨_, rfl, rfl⟩

/-- C10 at the ICMP datagram `pktA`. -/
theorem C10_witness :
    gates_pass T0 (memOf pktA) (pk0 48) ∧ fuel_for (pk0 48) ≤ 11 ∧
    ∃ q, ipv4_decode T0 (memOf pktA) 11 (pk0 48) = .ok q ∧
      q.pkt_nxthdr = (pk0 48).pkt_nxthdr + be16toh T0 (iph_tot_len T0 (memOf pktA) 0) :=
  ⟨by decide, by decide,
   C10_cursor_repositioned T0 (memOf pktA) (pk0 48) 11 (by decide) (by decide) (by decide)⟩

/-- C11: for every protocol number `n`, `pmap[n]` is an index below 10 into
`subproto`, the slot it selects holds a handler and is none of the reserved
slots 2, 6 and 9; ICMP, IP-in-IP, TCP, UDP, ESP and AH select `icmp_decode`,
`tunnel_decode`, `tcp_decode`, `udp_decode`, `esp_decode` and `ah_decode`,
and every other number selects `raw_decode`. -/
theorem C11_dispatch_total (n : Nat) :
    pmap n < 10 ∧ pmap n < subproto.length ∧
    (∃ h, subproto[pmap n]? = some (some h)) ∧
    pmap n ≠ 2 ∧ pmap n ≠ 6 ∧ pmap n ≠ 9 ∧
    subproto[pmap IP_PROTO_ICMP]? = some (some .icmp_decode) ∧
    subproto[pmap IP_PROTO_IPIP]? = some (some .tunnel_decode) ∧
    subproto[pmap IP_PROTO_TCP]? = some (some .tcp_decode) ∧
    subproto[pmap IP_PROTO_UDP]? = some (some .udp_decode) ∧
    subproto[pmap IP_PROTO_ESP]? = some (some .esp_decode) ∧
    subproto[pmap IP_PROTO_AH]? = some (some .ah_decode) ∧
    (n ≠ 1 → n ≠ 4 → n ≠ 6 → n ≠ 17 → n ≠ 50 → n ≠ 51 →
      subproto[pmap n]? = some (some .raw_decode)) := by
  refine ⟨?_, ?_, ?_, ?_, ?_, ?_, by decide, by decide, by decide, by decide, by decide,
    by decide, ?_⟩
  · rcases pmap_cases n with h | h | h | h | h | h | h <;> omega
  · rcases pmap_cases n with h | h | h | h | h | h | h <;> rw [h] <;> decide
  · rcases pmap_cases n with h | h | h | h | h | h | h <;> rw [h] <;> exact ⟨_, rfl⟩
  · rcases pmap_cases n with h | h | h | h | h | h | h <;> omega
  · rcases pmap_cases n with h | h | h | h | h | h | h <;> omega
  · rcases pmap_cases n with h | h | h | h | h | h | h <;> omega
  · intro h1 h4 h6 h17 h50 h51
    have : pmap n = 0 := by
      simp only [pmap, IP_PROTO_ICMP, IP_PROTO_IGMP, IP_PROTO_IPIP, IP_PROTO_TCP, IP_PROTO_UDP,
        IP_PROTO_DCCP, IP_PROTO_ESP, IP_PROTO_AH, IP_PROTO_SCTP, h1, h4, h6, h17, h50, h51,
        if_false, ite_self]
    rw [this]; rfl

/-- C11 at IGMP, which selects `raw_decode`. -/
theorem C11_witness :
    IP_PROTO_IGMP ≠ 1 ∧ subproto[pmap IP_PROTO_IGMP]? = some (some .raw_decode) :=
  ⟨by decide, (C11_dispatch_total IP_PROTO_IGMP).2.2.2.2.2.2.2.2.2.2.2.2
    (by decide) (by decide) (by decide) (by decide) (by decide) (by decide)⟩

/-- C12: `ah_decode` called with an enclosing AH header issues one warning and
returns with the cursor and the arena as they were and without calling a
sub-decoder; and for a valid IPv4 packet of protocol AH whose complete AH
header names AH again, the whole decode issues exactly that one warning,
makes the two `subproto` calls of slot 8 and no other, and records no layer. -/
theorem C12_ah_nesting_guard (T : Target) (mem : Mem) (p : _pkt) (fuel : Nat)
    (hg : gates_pass T mem p)
    (hnf : ¬ (be16toh T (iph_frag_off T mem p.pkt_nxthdr) &&& IP_MF ≠ 0 ∨
      be16toh T (iph_frag_off T mem p.pkt_nxthdr) &&& IP_OFFMASK ≠ 0))
    (hproto : iph_protocol mem p.pkt_nxthdr = IP_PROTO_AH)
    (hfit : p.pkt_nxthdr + 4 * iph_ihl mem p.pkt_nxthdr + T.sizeof_pkt_ahhdr ≤ p.pkt_end)
    (hlen : 4 ≤ ah_ahl mem (p.pkt_nxthdr + 4 * iph_ihl mem p.pkt_nxthdr))
    (hfit2 : p.pkt_nxthdr + 4 * iph_ihl mem p.pkt_nxthdr + T.sizeof_pkt_ahhdr +
      (4 * ah_ahl mem (p.pkt_nxthdr + 4 * iph_ihl mem p.pkt_nxthdr) - 2) ≤ p.pkt_end)
    (hnext : ah_protocol mem (p.pkt_nxthdr + 4 * iph_ihl mem p.pkt_nxthdr) = IP_PROTO_AH) :
    (∀ (r : _pkt) (iph b f : Nat), ∃ q, ah_decode T mem (f + 1) r iph (some b) = .ok q ∧
      q.pkt_nxthdr = r.pkt_nxthdr ∧ arena_untouched r q ∧
      warns q.log = warns r.log ++ [.ah_nesting] ∧ calls q.log = calls r.log) ∧
    ∃ q, ipv4_decode T mem (fuel + 5) p = .ok q ∧
      warns q.log = warns p.log ++ [.ah_nesting] ∧
      calls q.log = calls p.log ++ [8, 8] ∧
      arena_untouched p q := by
  constructor
  · intro r iph b f
    exact ⟨_, ah_decode_nested T mem f r iph b, rfl, ⟨rfl, rfl, rfl, rfl⟩, by simp, by simp⟩
  · have hfrag : ¬ (iph_frag_off T mem p.pkt_nxthdr &&& ipfmask T ≠ 0) :=
      fun h => hnf ((frag_test_iff T mem p.pkt_nxthdr).1 h)
    have e4 : iph_ihl mem p.pkt_nxthdr <<< 2 = 4 * iph_ihl mem p.pkt_nxthdr := by
      rw [Nat.shiftLeft_eq]; omega
    have e5 : ∀ x : Nat, x <<< 2 = 4 * x := by
      intro x; rw [Nat.shiftLeft_eq]; omega
    have g1 : ¬ (p.pkt_nxthdr + 4 * iph_ihl mem p.pkt_nxthdr + T.sizeof_pkt_ahhdr > p.pkt_end) := by
      omega
    have g2 : ¬ (ah_ahl mem (p.pkt_nxthdr + 4 * iph_ihl mem p.pkt_nxthdr) < 4) := by omega
    have g3 : ¬ (p.pkt_nxthdr + 4 * iph_ihl mem p.pkt_nxthdr + T.sizeof_pkt_ahhdr +
      (4 * ah_ahl mem (p.pkt_nxthdr + 4 * iph_ihl mem p.pkt_nxthdr) - 2) > p.pkt_end) := by omega
    have hp8 : pmap IP_PROTO_AH = 8 := by decide
    rw [ipv4_decode_checked T mem p (fuel + 4) hg, if_neg hfrag, hproto, hp8]
    simp only [subproto_call, subproto, List.getElem?_cons_zero, List.getElem?_cons_succ,
      ah_decode, ne_eq, not_true_eq_false, if_false, ev_pkt_nxthdr, ev_pkt_end, ipv4_checked,
      e5, g1, g2, g3, hnext, hp8, reduceCtorEq, not_false_eq_true, if_true]
    refine ⟨_, rfl, ?_, ?_, ⟨rfl, rfl, rfl, rfl⟩⟩
    · simp
    · simp

/-- C12 at the AH-in-AH datagram `pktAA`. -/
theorem C12_witness :
    gates_pass T0 (memOf pktAA) (pk0 68) ∧
    ah_protocol (memOf pktAA) ((pk0 68).pkt_nxthdr + 4 * iph_ihl (memOf pktAA) 0) = IP_PROTO_AH ∧
    ∃ q, ipv4_decode T0 (memOf pktAA) (0 + 5) (pk0 68) = .ok q ∧
      warns q.log = warns (pk0 68).log ++ [.ah_nesting] ∧
      calls q.log = calls (pk0 68).log ++ [8, 8] ∧
      arena_untouched (pk0 68) q :=
  ⟨by decide, by decide,
   (C12_ah_nesting_guard T0 (memOf pktAA) (pk0 68) 0 (by decide) (by decide) (by decide)
    (by decide) (by decide) (by decide) (by decide)).2⟩

set_option maxRecDepth 8000 in
/-- Two nested headers decoded into an empty arena: two `iptunnel` layers. -/
theorem tunnel_two_levels_eval :
    (ipv4_decode T0 (memOf pktTun) 7 (pk0 60)).toOption.map
        (fun q => (layer_labels q 8, q.pkt_dcb_top, (q.arena 1000).x_iph, (q.arena 1032).x_iph)) =
      some ([some "iptunnel", some "iptunnel"], 1064, some 0, some 20) := by
  decide

set_option maxRecDepth 8000 in
/-- The tunnel `pktW` decoded into an empty arena: an `iptunnel` layer and the
`tcp` layer of the carried datagram. -/
theorem tunnel_tcp_eval :
    (ipv4_decode T0 (memOf pktW) 16 (pk0 60)).toOption.map
        (fun q => (layer_labels q 8, q.pkt_dcb_top)) =
      some ([some "iptunnel", some "tcp"], 1072) := by
  decide

set_option maxRecDepth 8000 in
/-- Two nested headers decoded into an arena with room for one block: one
`iptunnel` block, and the top ends beyond the limit. -/
theorem tunnel_tight_eval :
    (ipv4_decode T0 (memOf pktTun) 16 pkTight).toOption.map
        (fun q => ((q.arena 1360).dcb_proto, decide (q.arena 1392 = dcb0), q.pkt_dcb_top,
          q.pkt_dcb_end)) =
      some (some (p_tunnel T0), true, 1424, 1400) := by
  decide

set_option maxRecDepth 8000 in
/-- C14 fails as stated: the well-formed IPv4/TCP datagram `pktT`, decoded
into an empty arena, yields one layer, owned by `tcp`, not two. -/
theorem C14_tcp_two_layers_counterexample :
    gates_pass T0 (memOf pktT) (pk0 40) ∧ iph_ihl (memOf pktT) 0 = 5 ∧
    iph_protocol (memOf pktT) 0 = IP_PROTO_TCP ∧ tcph_doff (memOf pktT) 20 = 5 ∧
    (ipv4_decode T0 (memOf pktT) 11 (pk0 40)).toOption.map
        (fun q => (layer_labels q 8, q.pkt_dcb_top, (q.arena 1000).x_iph,
          (q.arena 1000).x_hdr)) =
      some ([some "tcp"], 1040, some 0, some 20) ∧
    (ipv4_decode T0 (memOf pktT) 11 (pk0 40)).toOption.map
        (fun q => decide ((layer_labels q 8).length = 2)) = some false := by
  decide

/-- C14, amended: a well-formed IPv4/TCP packet (IHL 5, valid checksum, not a
fragment, protocol 6, complete TCP header) decoded into an empty arena with
room yields exactly one layer, owned by `tcp`; its IP-header reference is the
header start and its TCP-header reference the header start plus 20. -/
theorem C14_tcp_one_layer (T : Target) (mem : Mem) (p : _pkt) (fuel n : Nat)
    (hg : gates_pass T mem p)
    (hihl : iph_ihl mem p.pkt_nxthdr = 5)
    (hnf : ¬ (be16toh T (iph_frag_off T mem p.pkt_nxthdr) &&& IP_MF ≠ 0 ∨
      be16toh T (iph_frag_off T mem p.pkt_nxthdr) &&& IP_OFFMASK ≠ 0))
    (hproto : iph_protocol mem p.pkt_nxthdr = IP_PROTO_TCP)
    (hfit : p.pkt_nxthdr + 20 + 20 ≤ p.pkt_end)
    (hdoff : p.pkt_nxthdr + 20 + 4 * tcph_doff mem (p.pkt_nxthdr + 20) ≤ p.pkt_end)
    (hempty : p.pkt_dcb_top = p.pkt_dcb)
    (hsz : 0 < T.sizeof_tcp_dcb)
    (hroom : p.pkt_dcb_top + T.sizeof_tcp_dcb ≤ p.pkt_dcb_end) :
    ∃ q, ipv4_decode T mem (fuel + 2) p = .ok q ∧
      layer_labels q (n + 2) = [some "tcp"] ∧
      q.pkt_dcb_top = p.pkt_dcb_top + T.sizeof_tcp_dcb ∧
      q.arena p.pkt_dcb_top =
        { p.arena p.pkt_dcb_top with
          dcb_next := p.pkt_dcb_top + T.sizeof_tcp_dcb,
          dcb_proto := some (p_tcp T),
          x_iph := some p.pkt_nxthdr, x_ah := none,
          x_hdr := some (p.pkt_nxthdr + 20) } ∧
      (∀ a, a ≠ p.pkt_dcb_top → q.arena a = p.arena a) ∧
      calls q.log = calls p.log ++ [4] := by
  have hfrag : ¬ (iph_frag_off T mem p.pkt_nxthdr &&& ipfmask T ≠ 0) :=
    fun h => hnf ((frag_test_iff T mem p.pkt_nxthdr).1 h)
  have e5 : ∀ x : Nat, x <<< 2 = 4 * x := by
    intro x; rw [Nat.shiftLeft_eq]; omega
  have hp4 : pmap IP_PROTO_TCP = 4 := by decide
  have g1 : ¬ (p.pkt_nxthdr + 20 + sizeof_pkt_tcphdr > p.pkt_end) := by
    simp only [sizeof_pkt_tcphdr]; omega
  have g2 : ¬ (p.pkt_nxthdr + 20 + 4 * tcph_doff mem (p.pkt_nxthdr + 20) > p.pkt_end) := by
    omega
  have g3 : ¬ (p.pkt_dcb_top + T.sizeof_tcp_dcb > p.pkt_dcb_end) := by omega
  rw [ipv4_decode_checked T mem p (fuel + 1) hg, if_neg hfrag, hproto, hp4]
  simp only [subproto_call, subproto, List.getElem?_cons_zero, List.getElem?_cons_succ,
    tcp_decode, ev_pkt_nxthdr, ev_pkt_end, ipv4_checked, e5, hihl, g1, g2, if_false,
    decode_layer, _decode_layer, _decode_dcb_alloc, ev_pkt_dcb_top, ev_pkt_dcb_end, g3, p_tcp]
  refine ⟨_, rfl, ?_, rfl, ?_, ?_, ?_⟩
  · have hlt : p.pkt_dcb < p.pkt_dcb + T.sizeof_tcp_dcb := by omega
    have hnlt : ¬ (p.pkt_dcb + T.sizeof_tcp_dcb < p.pkt_dcb + T.sizeof_tcp_dcb) := by omega
    simp only [layer_labels, dcb_walk, _pkt.store, ev_pkt_dcb, ev_arena, hempty, hlt, hnlt,
      if_true, if_false, List.map_cons, List.map_nil, Option.map_some']
  · simp [_pkt.store]
  · intro a ha
    simp [_pkt.store, ha]
  · simp

/-- C14 (amended) at the datagram `pktT`. -/
theorem C14_witness :
    gates_pass T0 (memOf pktT) (pk0 40) ∧ (pk0 40).pkt_dcb_top = (pk0 40).pkt_dcb ∧
    ∃ q, ipv4_decode T0 (memOf pktT) (0 + 2) (pk0 40) = .ok q ∧
      layer_labels q (0 + 2) = [some "tcp"] := by
  obtain ⟨q, h1, h2, _⟩ :=
    C14_tcp_one_layer T0 (memOf pktT) (pk0 40) 0 0 (by decide) (by decide) (by decide)
      (by decide) (by decide) (by decide) (by decide) (by decide) (by decide)
  exact ⟨by decide, by decide, q, h1, h2⟩

/-- C15: for an ICMP header of type Destination-Unreachable, Time-Exceeded or
Parameter-Problem that is followed by fewer than 20 bytes, or by an inner
header with `version != 4`, `ihl < 5` or a nonzero checksum, `icmp_decode`
records exactly one block, owned by `icmp`, with a null inner-header
reference and the start of the ICMP header as its header reference. -/
theorem C15_icmp_bad_inner (T : Target) (mem : Mem) (p : _pkt) (outer : Nat)
    (ah : Option Nat)
    (hfit : p.pkt_nxthdr + 8 ≤ p.pkt_end)
    (htype : icmph_type mem p.pkt_nxthdr = ICMP_DEST_UNREACH ∨
      icmph_type mem p.pkt_nxthdr = ICMP_TIME_EXCEEDED ∨
      icmph_type mem p.pkt_nxthdr = ICMP_PARAMETERPROB)
    (hbad : p.pkt_end < p.pkt_nxthdr + 8 + 20 ∨
      iph_version mem (p.pkt_nxthdr + 8) ≠ 4 ∨ iph_ihl mem (p.pkt_nxthdr + 8) < 5 ∨
      _ip_csum T mem (p.pkt_nxthdr + 8) ≠ 0)
    (hroom : p.pkt_dcb_top + T.sizeof_icmp_dcb ≤ p.pkt_dcb_end) :
    (icmp_decode T mem p outer ah).pkt_dcb_top = p.pkt_dcb_top + T.sizeof_icmp_dcb ∧
    (icmp_decode T mem p outer ah).arena p.pkt_dcb_top =
      { p.arena p.pkt_dcb_top with
        dcb_next := p.pkt_dcb_top + T.sizeof_icmp_dcb,
        dcb_proto := some (p_icmp T),
        x_iph := none, x_ah := ah,
        x_hdr := some p.pkt_nxthdr,
        x_inner := none } ∧
    (p_icmp T).p_label = "icmp" ∧
    (∀ a, a ≠ p.pkt_dcb_top → (icmp_decode T mem p outer ah).arena a = p.arena a) := by
  have g1 : ¬ (p.pkt_nxthdr + sizeof_pkt_icmphdr > p.pkt_end) := by
    simp only [sizeof_pkt_icmphdr]; omega
  have ht : icmph_type mem p.pkt_nxthdr = ICMP_TIME_EXCEEDED ∨
      icmph_type mem p.pkt_nxthdr = ICMP_DEST_UNREACH ∨
      icmph_type mem p.pkt_nxthdr = ICMP_PARAMETERPROB := by
    rcases htype with h | h | h
    · exact Or.inr (Or.inl h)
    · exact Or.inl h
    · exact Or.inr (Or.inr h)
  -- the inner header is rejected, with the arena as it was
  have hin : ∀ r : _pkt, r.pkt_nxthdr = p.pkt_nxthdr + 8 → r.pkt_end = p.pkt_end →
      (icmp_try_inner T mem r outer p.pkt_nxthdr).1 = none ∧
      (icmp_try_inner T mem r outer p.pkt_nxthdr).2.pkt_dcb_top = r.pkt_dcb_top ∧
      (icmp_try_inner T mem r outer p.pkt_nxthdr).2.pkt_dcb_end = r.pkt_dcb_end ∧
      (icmp_try_inner T mem r outer p.pkt_nxthdr).2.arena = r.arena := by
    intro r hr he
    simp only [icmp_try_inner, sizeof_pkt_iphdr, hr, he]
    split
    · exact ⟨rfl, rfl, rfl, rfl⟩
    split
    · exact ⟨rfl, rfl, rfl, rfl⟩
    split
    · exact ⟨rfl, rfl, rfl, rfl⟩
    · rename_i h1 h2 h3
      exfalso
      rcases hbad with h | h | h | h
      · omega
      · exact h2 (Or.inl h)
      · exact h2 (Or.inr h)
      · exact h3 h
  have hin' := hin ((({ p with pkt_nxthdr := p.pkt_nxthdr + sizeof_pkt_icmphdr } : _pkt)).ev
    (.read p.pkt_nxthdr 1)) rfl rfl
  obtain ⟨i1, i2, i3, i4⟩ := hin'
  simp only [icmp_decode, g1, if_false, ht, if_true, i1]
  rw [decode_layer_room _ _ (by rw [i2, i3]; exact hroom)]
  simp only [_pkt.store, i2, i4, ev_arena, ev_pkt_dcb_top, if_true, p_icmp]
  refine ⟨trivial, trivial, trivial, ?_⟩
  intro a ha
  simp only [ha, if_false]

/-- C15 at `pktA` cut to 40 bytes: 12 bytes follow the ICMP header. -/
theorem C15_witness :
    ({ pk0 40 with pkt_nxthdr := 20 } : _pkt).pkt_end <
      ({ pk0 40 with pkt_nxthdr := 20 } : _pkt).pkt_nxthdr + 8 + 20 ∧
    (icmp_decode T0 (memOf pktA) { pk0 40 with pkt_nxthdr := 20 } 0 none).pkt_dcb_top
      = 1000 + 48 ∧
    ((icmp_decode T0 (memOf pktA) { pk0 40 with pkt_nxthdr := 20 } 0 none).arena 1000).x_inner
      = none := by
  obtain ⟨h1, h2, _⟩ :=
    C15_icmp_bad_inner T0 (memOf pktA) { pk0 40 with pkt_nxthdr := 20 } 0 none (by decide)
      (Or.inl (by decide)) (Or.inl (by decide)) (by decide)
  refine ⟨by decide, h1, ?_⟩
  show ((icmp_decode T0 (memOf pktA) { pk0 40 with pkt_nxthdr := 20 } 0 none).arena
    ({ pk0 40 with pkt_nxthdr := 20 } : _pkt).pkt_dcb_top).x_inner = none
  rw [h2]

/-- C16: on the valid IPv4/ESP datagram `pktE`, decoded into an empty arena,
`esp_decode` is called and stamps the block at the arena top, but the top
stays where it was (`p_esp` declares no DCB size): the iteration over the
completed layers visits no block, as before the call. -/
theorem C16_esp_top_not_advanced :
    gates_pass T0 (memOf pktE) (pk0 36) ∧ iph_protocol (memOf pktE) 0 = IP_PROTO_ESP ∧
    (ipv4_decode T0 (memOf pktE) 11 (pk0 36)).toOption.map
        (fun q => (q.pkt_dcb_top, layer_labels q 8, calls q.log,
          (q.arena 1000).dcb_proto, (q.arena 1000).dcb_next)) =
      some (1000, [], [7], some p_esp, 1000) ∧
    layer_labels (pk0 36) 8 = [] := by
  decide

/-- C17 fails as stated: `flow_track_dtor` calls `_ipdefrag_dtor` first and
`_tcpflow_dtor` second, which is the activation order and not its reverse. -/
theorem C17_dtor_order_counterexample :
    flow_track_ctor true true [] = (1, [._ipdefrag_ctor, ._tcpflow_ctor]) ∧
    flow_track_dtor [] = [._ipdefrag_dtor, ._tcpflow_dtor] ∧
    flow_track_dtor [] ≠ [._tcpflow_dtor, ._ipdefrag_dtor] := by
  decide

/-- C17, amended: a successful `flow_track_ctor` activates ipdefrag and then
tcpflow, and `flow_track_dtor` runs each destructor exactly once, in the
order of activation (ipdefrag first, then tcpflow). -/
theorem C17_flow_track_order (a b : Bool) (tr : List FlowEvent) :
    ((flow_track_ctor a b tr).1 = 1 →
      (flow_track_ctor a b tr).2 = tr ++ [._ipdefrag_ctor, ._tcpflow_ctor]) ∧
    flow_track_dtor tr = tr ++ [._ipdefrag_dtor, ._tcpflow_dtor] := by
  constructor
  · cases a <;> cases b <;> simp [flow_track_ctor]
  · simp [flow_track_dtor]

/-- C17 (amended) at two successful sub-constructors. -/
theorem C17_witness :
    (flow_track_ctor true true []).1 = 1 ∧
    (flow_track_ctor true true []).2 = [] ++ [._ipdefrag_ctor, ._tcpflow_ctor] :=
  ⟨by decide, (C17_flow_track_order true true []).1 (by decide)⟩

/-- C18: `udp_decode`, entered with the cursor at 20, records a `udp` block
whose header reference is 28, the cursor past the 8-byte UDP header, not the
first byte of the header. -/
theorem C18_udp_hdr_past_header :
    ({ pk0 32 with pkt_nxthdr := 20 } : _pkt).pkt_nxthdr = 20 ∧
    (udp_decode T0 { pk0 32 with pkt_nxthdr := 20 } 0 none).pkt_nxthdr = 28 ∧
    ((udp_decode T0 { pk0 32 with pkt_nxthdr := 20 } 0 none).arena 1000).dcb_proto
      = some (p_udp T0) ∧
    ((udp_decode T0 { pk0 32 with pkt_nxthdr := 20 } 0 none).arena 1000).x_hdr = some 28 ∧
    (ipv4_decode T0 (memOf pktU) 11 (pk0 32)).toOption.map
        (fun q => (layer_labels q 8, (q.arena 1000).x_iph, (q.arena 1000).x_hdr)) =
      some ([some "udp"], some 0, some 28) := by
  decide

/-- C19: on `pktAH`, whose AH header starts at 20 with payload length 4 (24
bytes on the wire), the nested `tcp_decode` gets that AH header as its
context but starts at cursor 46, not at `20 + 4 * (4 + 2) = 44`. -/
theorem C19_ah_cursor_off :
    gates_pass T0 (memOf pktAH) (pk0 72) ∧ ah_ahl (memOf pktAH) 20 = 4 ∧
    ah_protocol (memOf pktAH) 20 = IP_PROTO_TCP ∧
    (ipv4_decode T0 (memOf pktAH) 11 (pk0 72)).toOption.map
        (fun q => (layer_labels q 8, calls q.log, (q.arena 1000).x_ah, (q.arena 1000).x_hdr)) =
      some ([some "tcp"], [8, 4], some 20, some 46) ∧
    20 + 4 * (4 + 2) = 44 := by
  decide

set_option maxRecDepth 8000 in
/-- C20: on the ICMP datagram `pktA`, whose IPv4 header starts at 0, the
`icmp` block has a null `icmp_iph`: `icmp_decode` stores the inner header
there, not the header of the enclosing datagram. -/
theorem C20_icmp_iph_not_outer :
    (ipv4_decode T0 (memOf pktA) 11 (pk0 48)).toOption.map
        (fun q => (layer_labels q 8, (q.arena 1000).x_iph, (q.arena 1000).x_hdr,
          (q.arena 1000).x_inner)) =
      some ([some "icmp"], none, some 20, none) ∧
    ((icmp_decode T0 (memOf pktA) { pk0 48 with pkt_nxthdr := 20 } 0 none).arena 1000).x_iph
      = none := by
  decide

end Firestorm
